import Mathlib

/-!
# Verification of the `pomodrone` session-analytics engine

Shallow embedding of `src/app/electron/analytics-store.cjs` (the CSV record
codec, the session normalizer, the record store and the window aggregator)
and of the session-finalization logic of `src/app/src/App.tsx`.

Modelling conventions:
* JavaScript strings are modelled as `List Char` (`Str` below); JS `String`
  values built by the code are translated to the corresponding char lists.
* Finite JS numbers are modelled as rationals (`ℚ`); a JS number that may be
  `NaN`/`±Infinity` (e.g. the result of `Number(x)` on arbitrary input) is
  modelled as `Option ℚ` with `none` for the non-finite case.
* `Math.round` is `fun q => ⌊q + 1/2⌋` (JS rounds halves toward `+∞`).
* Timestamps are modelled by their millisecond value: a raw field that the
  code feeds to `Date.parse` is carried as `Option Int` (`none` when the
  string does not parse) and `new Date(ms).toISOString()` is implemented
  below (proleptic Gregorian calendar, the algorithm used by JS engines).
-/

namespace Pomodrone

/-- JS strings are modelled as lists of characters. -/
abbrev Str := List Char

/-! ## Record codec (`escapeCsv` / `parseCsvLine`, analytics-store.cjs 280-318) -/

/-- `str.replace(/"/g, '""')`: double every quote character. -/
def doubleQuotes (s : Str) : Str :=
  s.flatMap fun c => if c = '"' then ['"', '"'] else [c]

/-- `str.includes(',') || str.includes('"') || str.includes('\n')`. -/
def needsQuoting (s : Str) : Bool :=
  s.contains ',' || s.contains '"' || s.contains '\n'

/-- `escapeCsv` (analytics-store.cjs 312-318): wrap in quotes, doubling
internal quotes, iff the value contains a comma, a quote or a newline. -/
def escapeCsv (s : Str) : Str :=
  if needsQuoting s then '"' :: (doubleQuotes s ++ ['"']) else s

/-- The scanning loop of `parseCsvLine` (analytics-store.cjs 280-310):
`current` is the field being accumulated, the `Bool` is the `inQuotes`
state.  On `"` inside quotes, the lookahead `rest.head?` plays the role of
`line[i + 1]`: a doubled quote emits one quote and skips both characters,
otherwise a `"` toggles the quoted state; a `,` outside quotes closes the
current field. -/
def parseCsvAux : Str → Str → Bool → List Str
  | [], current, _ => [current]
  | c :: rest, current, inQuotes =>
    if c = '"' then
      if inQuotes ∧ rest.head? = some '"' then
        parseCsvAux rest.tail (current ++ ['"']) true
      else
        parseCsvAux rest current (!inQuotes)
    else if c = ',' ∧ inQuotes = false then
      current :: parseCsvAux rest [] inQuotes
    else
      parseCsvAux rest (current ++ [c]) inQuotes
termination_by s _ _ => s.length
decreasing_by
  · simp only [List.length_cons, List.length_tail]
    omega
  · simp
  · simp
  · simp

/-- `parseCsvLine` (analytics-store.cjs 280-310). -/
def parseCsvLine (line : Str) : List Str :=
  parseCsvAux line [] false

/-- `array.join(',')`. -/
def joinComma : List Str → Str
  | [] => []
  | [s] => s
  | s :: rest => s ++ ',' :: joinComma rest

/-- The encoding side of `appendSession`: `fields.map(escapeCsv).join(',')`. -/
def encodeCsvLine (fields : List Str) : Str :=
  joinComma (fields.map escapeCsv)

/-! ### Step lemmas for the scanner -/

theorem parseCsvAux_nil (acc : Str) (q : Bool) : parseCsvAux [] acc q = [acc] := by
  simp [parseCsvAux]

theorem parseCsvAux_dquote (rest acc : Str) :
    parseCsvAux ('"' :: '"' :: rest) acc true = parseCsvAux rest (acc ++ ['"']) true := by
  simp [parseCsvAux]

theorem parseCsvAux_quote_close (rest acc : Str) (h : rest.head? ≠ some '"') :
    parseCsvAux ('"' :: rest) acc true = parseCsvAux rest acc false := by
  rw [parseCsvAux]
  simp [h]

theorem parseCsvAux_quote_open (rest acc : Str) :
    parseCsvAux ('"' :: rest) acc false = parseCsvAux rest acc true := by
  rw [parseCsvAux]
  simp

theorem parseCsvAux_comma (rest acc : Str) :
    parseCsvAux (',' :: rest) acc false = acc :: parseCsvAux rest [] false := by
  rw [parseCsvAux]
  simp

theorem parseCsvAux_char (c : Char) (rest acc : Str) (q : Bool)
    (hq : c ≠ '"') (hc : ¬(c = ',' ∧ q = false)) :
    parseCsvAux (c :: rest) acc q = parseCsvAux rest (acc ++ [c]) q := by
  rw [parseCsvAux]
  simp [hq, hc]

/-! ### Round-trip of the codec -/

theorem doubleQuotes_cons (c : Char) (s : Str) :
    doubleQuotes (c :: s) =
      (if c = '"' then ['"', '"'] else [c]) ++ doubleQuotes s := by
  simp [doubleQuotes]

/-- Scanning the quote-doubled body of a field in quoted state consumes the
body and the closing quote, provided the continuation does not begin with
another quote (it is always `[]` or starts with `,`). -/
theorem parseCsvAux_quoted (s : Str) :
    ∀ (acc rest : Str), rest.head? ≠ some '"' →
      parseCsvAux (doubleQuotes s ++ '"' :: rest) acc true =
        parseCsvAux rest (acc ++ s) false := by
  induction s with
  | nil =>
    intro acc rest h
    show parseCsvAux ('"' :: rest) acc true = _
    rw [parseCsvAux_quote_close rest acc h]
    simp
  | cons c s ih =>
    intro acc rest h
    by_cases hc : c = '"'
    · subst hc
      rw [doubleQuotes_cons]
      simp only [if_pos rfl]
      show parseCsvAux ('"' :: '"' :: (doubleQuotes s ++ '"' :: rest)) acc true = _
      rw [parseCsvAux_dquote, ih (acc ++ ['"']) rest h]
      simp
    · rw [doubleQuotes_cons]
      simp only [if_neg hc]
      show parseCsvAux (c :: (doubleQuotes s ++ '"' :: rest)) acc true = _
      rw [parseCsvAux_char c _ acc true hc (by simp), ih (acc ++ [c]) rest h]
      simp

/-- Scanning a field that contains neither a comma nor a quote, outside
quotes, just accumulates it. -/
theorem parseCsvAux_raw (s : Str) :
    ∀ (acc rest : Str), ',' ∉ s → '"' ∉ s →
      parseCsvAux (s ++ rest) acc false =
        parseCsvAux rest (acc ++ s) false := by
  induction s with
  | nil => intro acc rest _ _; simp
  | cons c s ih =>
    intro acc rest hc hq
    have hc1 : c ≠ ',' := fun h => hc (by simp [h])
    have hq1 : c ≠ '"' := fun h => hq (by simp [h])
    have hc2 : ',' ∉ s := fun h => hc (List.mem_cons_of_mem _ h)
    have hq2 : '"' ∉ s := fun h => hq (List.mem_cons_of_mem _ h)
    show parseCsvAux (c :: (s ++ rest)) acc false = _
    rw [parseCsvAux_char c _ acc false hq1 (by simp [hc1]), ih (acc ++ [c]) rest hc2 hq2]
    simp

theorem contains_eq_false_iff (s : Str) (c : Char) :
    s.contains c = false ↔ c ∉ s := by
  simp [List.contains]

/-- One escaped field followed by a continuation that does not begin with a
quote scans to the original field. -/
theorem parseCsvAux_escape (f : Str) (acc rest : Str)
    (h : rest.head? ≠ some '"') :
    parseCsvAux (escapeCsv f ++ rest) acc false =
      parseCsvAux rest (acc ++ f) false := by
  unfold escapeCsv
  by_cases hq : needsQuoting f
  · simp only [if_pos hq]
    show parseCsvAux ('"' :: (doubleQuotes f ++ ['"'] ++ rest)) acc false = _
    rw [parseCsvAux_quote_open, List.append_assoc, List.singleton_append]
    exact parseCsvAux_quoted f acc rest h
  · simp only [if_neg hq]
    have hb : needsQuoting f = false := by simpa using hq
    simp only [needsQuoting, Bool.or_eq_false_iff] at hb
    have h1 : ',' ∉ f := (contains_eq_false_iff f ',').mp hb.1.1
    have h2 : '"' ∉ f := (contains_eq_false_iff f '"').mp hb.1.2
    exact parseCsvAux_raw f acc rest h1 h2

/-- Core round-trip: scanning the encoded join of a non-empty field list
from state `(acc, false)` yields the fields, the first one prefixed by
`acc`. -/
theorem parseCsvAux_encode (t : List Str) :
    ∀ (f : Str) (acc : Str),
      parseCsvAux (encodeCsvLine (f :: t)) acc false = (acc ++ f) :: t := by
  induction t with
  | nil =>
    intro f acc
    show parseCsvAux (joinComma [escapeCsv f]) acc false = _
    have : joinComma [escapeCsv f] = escapeCsv f ++ [] := by simp [joinComma]
    rw [this, parseCsvAux_escape f acc [] (by simp)]
    simp [parseCsvAux_nil]
  | cons g t ih =>
    intro f acc
    show parseCsvAux (joinComma (escapeCsv f :: escapeCsv g :: t.map escapeCsv)) acc false = _
    have : joinComma (escapeCsv f :: escapeCsv g :: t.map escapeCsv) =
        escapeCsv f ++ ',' :: joinComma (escapeCsv g :: t.map escapeCsv) := by
      simp [joinComma]
    rw [this, parseCsvAux_escape f acc _ (by simp), parseCsvAux_comma]
    exact congrArg _ (ih g [])

/-- Round-trip of the codec for non-empty field tuples. -/
theorem csv_roundtrip (fields : List Str) (h : fields ≠ []) :
    parseCsvLine (encodeCsvLine fields) = fields := by
  cases fields with
  | nil => exact absurd rfl h
  | cons f t =>
    show parseCsvAux (encodeCsvLine (f :: t)) [] false = f :: t
    rw [parseCsvAux_encode t f []]
    simp

/-! ## JS numbers, decimal rendering and parsing -/

/-- `Math.round`: JS rounds halves toward `+∞`. -/
def jsRound (q : ℚ) : Int := ⌊q + 1 / 2⌋

/-- `clampNumber` (analytics-store.cjs 325): `Math.min(Math.max(value, min), max)`. -/
def clampNumber (value lo hi : ℚ) : ℚ := min (max value lo) hi

/-- `parseSafeNumber` (analytics-store.cjs 320-323) applied to an
already-coerced JS number: `Number.isFinite(number) ? number : 0`, where
`none` models a non-finite `Number(value)`. -/
def parseSafeNumber (v : Option ℚ) : ℚ := v.getD 0

/-- The decimal digit character for `n < 10`. -/
def natDigitChar (n : Nat) : Char := Char.ofNat (48 + n)

/-- Decimal rendering, with fuel to keep the recursion structural (and
hence kernel-reducible); `natRepr` below supplies sufficient fuel. -/
def natReprAux : Nat → Nat → Str
  | 0, n => [natDigitChar n]
  | fuel + 1, n =>
    if n < 10 then [natDigitChar n]
    else natReprAux fuel (n / 10) ++ [natDigitChar (n % 10)]

/-- Decimal rendering of a natural number (JS `String(n)` for an integral
number). -/
def natRepr (n : Nat) : Str := natReprAux n n

theorem natReprAux_fuel (f₁ : Nat) :
    ∀ (f₂ n : Nat), n ≤ f₁ → n ≤ f₂ → natReprAux f₁ n = natReprAux f₂ n := by
  induction f₁ with
  | zero =>
    intro f₂ n h1 _
    have : n = 0 := by omega
    subst this
    cases f₂ with
    | zero => rfl
    | succ k => simp [natReprAux]
  | succ g ih =>
    intro f₂ n h1 h2
    by_cases h : n < 10
    · cases f₂ with
      | zero =>
        have : n = 0 := by omega
        subst this
        simp [natReprAux]
      | succ k => simp [natReprAux, h]
    · have hf2 : ∃ k, f₂ = k + 1 := ⟨f₂ - 1, by omega⟩
      obtain ⟨k, rfl⟩ := hf2
      rw [natReprAux, natReprAux, if_neg h, if_neg h]
      have hlt : n / 10 < n := Nat.div_lt_self (by omega) (by omega)
      rw [ih k (n / 10) (by omega) (by omega)]

/-- The recursion `natRepr` implements: peel off the last digit. -/
theorem natRepr_unfold (n : Nat) :
    natRepr n = if n < 10 then [natDigitChar n]
      else natRepr (n / 10) ++ [natDigitChar (n % 10)] := by
  by_cases h : n < 10
  · rw [if_pos h]
    cases n with
    | zero => rfl
    | succ k => rw [natRepr, natReprAux, if_pos h]
  · rw [if_neg h]
    have hn : ∃ k, n = k + 1 := ⟨n - 1, by omega⟩
    obtain ⟨k, rfl⟩ := hn
    rw [natRepr, natReprAux, if_neg h, natRepr]
    have hlt : (k + 1) / 10 < k + 1 := Nat.div_lt_self (by omega) (by omega)
    rw [natReprAux_fuel k ((k + 1) / 10) ((k + 1) / 10) (by omega) (le_refl _)]

/-- JS `String(i)` for an integral number. -/
def intRepr (i : Int) : Str :=
  if i < 0 then '-' :: natRepr i.natAbs else natRepr i.toNat

/-- JS `String(b)` for a boolean. -/
def boolRepr (b : Bool) : Str := if b then "true".data else "false".data

/-- The numeric value of a decimal digit character, `none` otherwise. -/
def digitVal? (c : Char) : Option Nat :=
  if '0' ≤ c ∧ c ≤ '9' then some (c.toNat - 48) else none

/-- Value of a digit string read most-significant first. -/
def digitsVal (s : Str) : Nat := s.foldl (fun a c => a * 10 + (c.toNat - 48)) 0

def isDigits (s : Str) : Bool := s.all fun c => (digitVal? c).isSome

/-- Unsigned decimal literal: integer digits with an optional fractional
part. -/
def jsNumberPos (s : Str) : Option ℚ :=
  let ip := s.takeWhile fun c => (digitVal? c).isSome
  let rest := s.dropWhile fun c => (digitVal? c).isSome
  match rest with
  | [] => if ip = [] then none else some ((digitsVal ip : ℚ))
  | '.' :: fp =>
    if isDigits fp ∧ (ip ≠ [] ∨ fp ≠ []) then
      some ((digitsVal ip : ℚ) + (digitsVal fp : ℚ) / (10 : ℚ) ^ fp.length)
    else none
  | _ => none

/-- Model of JS `Number(string)` restricted to the plain decimal literals the
store writes (optional sign, digits, optional fractional digits); the empty
string coerces to `0` as in JS, and anything else the store never emits is
mapped to `none` (standing for `NaN`). -/
def jsNumber : Str → Option ℚ
  | [] => some 0
  | c :: rest =>
    if c = '-' then (jsNumberPos rest).map fun q => -q
    else if c = '+' then jsNumberPos rest
    else jsNumberPos (c :: rest)

/-- `parseSafeNumber` applied to a CSV cell (a string): `Number(value)`,
then `0` unless finite. -/
def parseSafeNumberStr (s : Str) : ℚ := (jsNumber s).getD 0

def padZeros (k : Nat) (s : Str) : Str := List.replicate (k - s.length) '0' ++ s

/-- `ratio.toFixed(4)` for the non-negative ratios the store emits: round to
4 decimal places and print with exactly 4 fractional digits. -/
def toFixed4 (q : ℚ) : Str :=
  let n := (jsRound (q * 10000)).toNat
  natRepr (n / 10000) ++ '.' :: padZeros 4 (natRepr (n % 10000))

/-! ### Rendering and parsing lemmas -/

theorem digitVal?_natDigitChar (d : Nat) (h : d < 10) :
    digitVal? (natDigitChar d) = some d := by
  interval_cases d <;> decide

theorem natRepr_isDigits (n : Nat) : isDigits (natRepr n) = true := by
  induction n using Nat.strong_induction_on with
  | _ n ih =>
    by_cases h : n < 10
    · rw [natRepr_unfold, if_pos h]
      simp [isDigits, digitVal?_natDigitChar n h]
    · rw [natRepr_unfold, if_neg h]
      have h10 : n % 10 < 10 := Nat.mod_lt _ (by omega)
      have ihd := ih (n / 10) (Nat.div_lt_self (by omega) (by omega))
      unfold isDigits at ihd ⊢
      rw [List.all_append, ihd]
      simp [digitVal?_natDigitChar _ h10]

theorem natRepr_ne_nil (n : Nat) : natRepr n ≠ [] := by
  rw [natRepr_unfold]
  by_cases h : n < 10
  · rw [if_pos h]; simp
  · rw [if_neg h]; simp

theorem toNat_natDigitChar (d : Nat) (h : d < 10) :
    (natDigitChar d).toNat = 48 + d := by
  interval_cases d <;> decide

theorem digitsVal_append_digit (s : Str) (c : Char) :
    digitsVal (s ++ [c]) = digitsVal s * 10 + (c.toNat - 48) := by
  simp [digitsVal, List.foldl_append]

theorem digitsVal_natRepr (n : Nat) : digitsVal (natRepr n) = n := by
  induction n using Nat.strong_induction_on with
  | _ n ih =>
    by_cases h : n < 10
    · rw [natRepr_unfold, if_pos h]
      simp [digitsVal, toNat_natDigitChar n h]
    · rw [natRepr_unfold, if_neg h]
      have h10 : n % 10 < 10 := Nat.mod_lt _ (by omega)
      rw [digitsVal_append_digit, ih (n / 10) (Nat.div_lt_self (by omega) (by omega)),
        toNat_natDigitChar _ h10]
      omega

theorem natRepr_length_le (n : Nat) :
    ∀ k, 0 < k → n < 10 ^ k → (natRepr n).length ≤ k := by
  induction n using Nat.strong_induction_on with
  | _ n ih =>
    intro k hk hn
    by_cases h : n < 10
    · rw [natRepr_unfold, if_pos h]
      simpa using hk
    · rw [natRepr_unfold, if_neg h]
      have hk2 : 2 ≤ k := by
        by_contra hc
        have : k = 1 := by omega
        subst this
        simp at hn
        omega
      have hdiv : n / 10 < 10 ^ (k - 1) := by
        have : 10 ^ k = 10 ^ (k - 1) * 10 := by
          rw [← pow_succ]
          congr 1
          omega
        rw [this] at hn
        exact Nat.div_lt_of_lt_mul (by omega)
      have := ih (n / 10) (Nat.div_lt_self (by omega) (by omega)) (k - 1) (by omega) hdiv
      simp only [List.length_append, List.length_cons, List.length_nil]
      omega

theorem takeWhile_all_append (p : Char → Bool) (A : Str) (x : Char) (B : Str)
    (hA : ∀ c ∈ A, p c = true) (hx : p x = false) :
    (A ++ x :: B).takeWhile p = A ∧ (A ++ x :: B).dropWhile p = x :: B := by
  induction A with
  | nil => simp [List.takeWhile, List.dropWhile, hx]
  | cons a A ih =>
    have ha : p a = true := hA a (by simp)
    have ih2 := ih fun c hc => hA c (by simp [hc])
    simp only [List.cons_append, List.takeWhile_cons, List.dropWhile_cons, ha]
    simp [ih2.1, ih2.2]

theorem takeWhile_all_self (p : Char → Bool) (A : Str)
    (hA : ∀ c ∈ A, p c = true) :
    A.takeWhile p = A ∧ A.dropWhile p = [] := by
  induction A with
  | nil => simp
  | cons a A ih =>
    have ha : p a = true := hA a (by simp)
    have ih2 := ih fun c hc => hA c (by simp [hc])
    simp [List.takeWhile_cons, List.dropWhile_cons, ha, ih2.1, ih2.2]

theorem jsNumberPos_natRepr (n : Nat) : jsNumberPos (natRepr n) = some ((n : ℚ)) := by
  have hd : ∀ c ∈ natRepr n, ((digitVal? c).isSome : Bool) = true := by
    have := natRepr_isDigits n
    simp only [isDigits, List.all_eq_true] at this
    exact this
  have h := takeWhile_all_self (fun c => (digitVal? c).isSome) (natRepr n) hd
  rw [jsNumberPos]
  simp only [h.1, h.2]
  rw [if_neg (by simpa using natRepr_ne_nil n), digitsVal_natRepr]

theorem digit_first_jsNumber (s : Str) (hne : s ≠ [])
    (hd : ∀ c, s.head? = some c → (digitVal? c).isSome = true) :
    jsNumber s = jsNumberPos s := by
  cases s with
  | nil => exact absurd rfl hne
  | cons c s =>
    have hc := hd c rfl
    have hcd : '0' ≤ c ∧ c ≤ '9' := by
      by_contra hcon
      simp [digitVal?, hcon] at hc
    have h1 : c ≠ '-' := fun he => by
      subst he; exact absurd hcd.1 (by decide)
    have h2 : c ≠ '+' := fun he => by
      subst he; exact absurd hcd.1 (by decide)
    rw [jsNumber, if_neg h1, if_neg h2]

theorem natRepr_head_digit (n : Nat) :
    ∀ c, (natRepr n).head? = some c → (digitVal? c).isSome = true := by
  intro c hc
  have hd := natRepr_isDigits n
  simp only [isDigits, List.all_eq_true] at hd
  have : c ∈ natRepr n := by
    cases hn : natRepr n with
    | nil => exact absurd hn (natRepr_ne_nil n)
    | cons a t =>
      rw [hn] at hc
      simp at hc
      simp [hn, hc]
  exact hd c this

/-- JS `Number(String(n)) = n` for naturals. -/
theorem jsNumber_natRepr (n : Nat) : jsNumber (natRepr n) = some (n : ℚ) := by
  rw [digit_first_jsNumber _ (natRepr_ne_nil n) (natRepr_head_digit n),
    jsNumberPos_natRepr]

/-- JS `Number(String(i)) = i` for non-negative integers. -/
theorem jsNumber_intRepr (i : Int) (h : 0 ≤ i) :
    jsNumber (intRepr i) = some (i : ℚ) := by
  rw [intRepr, if_neg (by omega), jsNumber_natRepr]
  congr 1
  exact_mod_cast congrArg (fun z : Int => (z : ℚ)) (Int.toNat_of_nonneg h)

theorem digitsVal_replicate_zero (k : Nat) (s : Str) :
    digitsVal (List.replicate k '0' ++ s) = digitsVal s := by
  induction k with
  | zero => simp
  | succ k ih =>
    rw [List.replicate_succ]
    simpa [digitsVal] using ih

theorem padZeros_length (k : Nat) (s : Str) (h : s.length ≤ k) :
    (padZeros k s).length = k := by
  simp [padZeros]
  omega

theorem isDigits_padZeros (k : Nat) (s : Str) (h : isDigits s = true) :
    isDigits (padZeros k s) = true := by
  unfold isDigits at h ⊢
  rw [padZeros, List.all_append, h]
  simp only [Bool.and_true, List.all_eq_true]
  intro c hc
  rw [List.eq_of_mem_replicate hc]
  decide

theorem digitsVal_padZeros (k : Nat) (s : Str) :
    digitsVal (padZeros k s) = digitsVal s :=
  digitsVal_replicate_zero _ s

/-- Reading back `q.toFixed(4)` gives `q` rounded to 4 decimal digits. -/
theorem jsNumber_toFixed4 (q : ℚ) (hq : 0 ≤ q) :
    jsNumber (toFixed4 q) = some (((jsRound (q * 10000) : ℚ)) / 10000) := by
  set n : Nat := (jsRound (q * 10000)).toNat with hn
  have hnn : 0 ≤ jsRound (q * 10000) := by
    rw [jsRound]
    rw [Int.le_floor]
    push_cast
    nlinarith
  have hcast : ((jsRound (q * 10000) : ℚ)) = (n : ℚ) := by
    rw [hn]
    exact_mod_cast (Int.toNat_of_nonneg hnn).symm
  have hto : toFixed4 q = natRepr (n / 10000) ++ '.' :: padZeros 4 (natRepr (n % 10000)) := by
    rw [toFixed4]
  have hdig : ∀ c ∈ natRepr (n / 10000), ((digitVal? c).isSome : Bool) = true := by
    have := natRepr_isDigits (n / 10000)
    simp only [isDigits, List.all_eq_true] at this
    exact this
  have htake := takeWhile_all_append (fun c => (digitVal? c).isSome)
    (natRepr (n / 10000)) '.' (padZeros 4 (natRepr (n % 10000))) hdig (by decide)
  have hb : jsNumber (toFixed4 q) = jsNumberPos (toFixed4 q) := by
    apply digit_first_jsNumber _ (by rw [hto]; simp [natRepr_ne_nil])
    intro c hc
    rw [hto] at hc
    cases hA : natRepr (n / 10000) with
    | nil => exact absurd hA (natRepr_ne_nil _)
    | cons a t =>
      rw [hA] at hc
      simp only [List.cons_append, List.head?_cons, Option.some_inj] at hc
      subst hc
      exact hdig a (by rw [hA]; simp)
  rw [hb, hto, jsNumberPos]
  simp only [htake.1, htake.2]
  have hfplen : (padZeros 4 (natRepr (n % 10000))).length = 4 :=
    padZeros_length 4 _ (natRepr_length_le _ 4 (by omega) (Nat.mod_lt _ (by omega)))
  rw [if_pos ⟨isDigits_padZeros _ _ (natRepr_isDigits _), Or.inl (natRepr_ne_nil _)⟩]
  rw [digitsVal_natRepr, digitsVal_padZeros, digitsVal_natRepr, hfplen, hcast]
  congr 1
  have h4 : ((10 : ℚ)) ^ (4 : ℕ) = 10000 := by norm_num
  rw [h4]
  have hs : (n : ℚ) = ((n / 10000 : ℕ) : ℚ) * 10000 + ((n % 10000 : ℕ) : ℚ) := by
    exact_mod_cast (by omega : n = n / 10000 * 10000 + n % 10000)
  rw [hs]
  ring

theorem boolRepr_true_iff (b : Bool) : (boolRepr b = ("true".data : Str)) ↔ b = true := by
  cases b <;> simp [boolRepr] <;> decide

/-! ### Digit strings contain no separator characters -/

theorem mem_natRepr_digit (n : Nat) (c : Char) (hc : c ∈ natRepr n) :
    '0' ≤ c ∧ c ≤ '9' := by
  have hd := natRepr_isDigits n
  simp only [isDigits, List.all_eq_true] at hd
  have := hd c hc
  by_contra hcon
  simp [digitVal?, hcon] at this

theorem nl_not_mem_natRepr (n : Nat) : '\n' ∉ natRepr n := by
  intro h
  exact absurd (mem_natRepr_digit n _ h).1 (by decide)

theorem nl_not_mem_intRepr (i : Int) : '\n' ∉ intRepr i := by
  rw [intRepr]
  by_cases h : i < 0
  · rw [if_pos h]
    intro hm
    rcases List.mem_cons.mp hm with h1 | h2
    · exact absurd h1 (by decide)
    · exact nl_not_mem_natRepr _ h2
  · rw [if_neg h]
    exact nl_not_mem_natRepr _

theorem nl_not_mem_padZeros (k : Nat) (s : Str) (h : '\n' ∉ s) :
    '\n' ∉ padZeros k s := by
  rw [padZeros]
  intro hm
  rcases List.mem_append.mp hm with h1 | h2
  · exact absurd (List.eq_of_mem_replicate h1) (by decide)
  · exact h h2

theorem nl_not_mem_toFixed4 (q : ℚ) : '\n' ∉ toFixed4 q := by
  rw [toFixed4]
  intro hm
  rcases List.mem_append.mp hm with h1 | h2
  · exact nl_not_mem_natRepr _ h1
  · rcases List.mem_cons.mp h2 with h3 | h4
    · exact absurd h3 (by decide)
    · exact nl_not_mem_padZeros _ _ (nl_not_mem_natRepr _) h4

theorem nl_not_mem_boolRepr (b : Bool) : '\n' ∉ boolRepr b := by
  cases b <;> decide

/-! ## ISO-8601 rendering (`new Date(ms).toISOString()`) -/

/-- Civil calendar from a day number (days since 1970-01-01, proleptic
Gregorian), the standard algorithm used to implement `Date` UTC accessors:
returns `(year, month, day)`. -/
def civilFromDays (z0 : Int) : Int × Nat × Nat :=
  let z := z0 + 719468
  let era := z.fdiv 146097
  let doe := (z - era * 146097).toNat
  let yoe := (doe - doe / 1461 + doe / 36524 - doe / 146096) / 365
  let doy := doe - (365 * yoe + yoe / 4 - yoe / 100)
  let mp := (5 * doy + 2) / 153
  let d := doy - (153 * mp + 2) / 5 + 1
  let m := if mp < 10 then mp + 3 else mp - 9
  ((yoe : Int) + era * 400 + (if m ≤ 2 then 1 else 0), m, d)

/-- The year component: 4 digits in the standard range, else the extended
`±YYYYYY` form used by `toISOString`. -/
def yearStr (y : Int) : Str :=
  if 0 ≤ y ∧ y ≤ 9999 then padZeros 4 (natRepr y.toNat)
  else (if y < 0 then '-' else '+') :: padZeros 6 (natRepr y.natAbs)

/-- `new Date(ms).toISOString()`: `YYYY-MM-DDTHH:MM:SS.mmmZ` in UTC. -/
def toISOString (ms : Int) : Str :=
  let days := ms.fdiv 86400000
  let msOfDay := (ms - days * 86400000).toNat
  let ymd := civilFromDays days
  let hh := msOfDay / 3600000
  let mi := msOfDay % 3600000 / 60000
  let ss := msOfDay % 60000 / 1000
  let mss := msOfDay % 1000
  yearStr ymd.1 ++ '-' :: padZeros 2 (natRepr ymd.2.1) ++ '-' :: padZeros 2 (natRepr ymd.2.2) ++
    'T' :: padZeros 2 (natRepr hh) ++ ':' :: padZeros 2 (natRepr mi) ++
    ':' :: padZeros 2 (natRepr ss) ++ '.' :: padZeros 3 (natRepr mss) ++ ['Z']

theorem nl_not_mem_yearStr (y : Int) : '\n' ∉ yearStr y := by
  rw [yearStr]
  by_cases h : 0 ≤ y ∧ y ≤ 9999
  · rw [if_pos h]
    exact nl_not_mem_padZeros _ _ (nl_not_mem_natRepr _)
  · rw [if_neg h]
    intro hm
    rcases List.mem_cons.mp hm with h1 | h2
    · by_cases hy : y < 0 <;> simp [hy] at h1 <;> exact absurd h1 (by decide)
    · exact nl_not_mem_padZeros _ _ (nl_not_mem_natRepr _) h2

theorem nl_not_mem_toISOString (ms : Int) : '\n' ∉ toISOString ms := by
  rw [toISOString]
  intro hm
  simp only [List.mem_append, List.mem_cons, List.mem_singleton] at hm
  have hpad2 : ∀ n : Nat, '\n' ∉ padZeros 2 (natRepr n) :=
    fun n => nl_not_mem_padZeros _ _ (nl_not_mem_natRepr _)
  have hpad3 : ∀ n : Nat, '\n' ∉ padZeros 3 (natRepr n) :=
    fun n => nl_not_mem_padZeros _ _ (nl_not_mem_natRepr _)
  simp only [or_assoc] at hm
  rcases hm with h | h | h | h | h | h | h | h | h | h | h | h | h | h <;>
    first
    | exact nl_not_mem_yearStr _ h
    | exact absurd h (by decide)
    | exact hpad2 _ h
    | exact hpad3 _ h

/-! ## Session normalizer (`normalizeSession`, analytics-store.cjs 126-151) -/

/-- A raw session event as received by `appendSession`/`normalizeSession`.
Numeric fields carry the value of `Number(x)` (`none` when non-finite, as
tested by `Number.isFinite`); timestamp fields carry the value of
`Date.parse(x)` in ms (`none` when unparseable); `completed` and
`wasSkipped` carry `Boolean(x)`; `sessionId` is `none` when the raw value
is falsy and non-string. -/
structure RawSession where
  sessionId : Option Str
  startedAt : Option Int
  endedAt : Option Int
  mode : Str
  plannedSeconds : Option ℚ
  actualSeconds : Option ℚ
  completionRatio : Option ℚ
  completed : Bool
  wasSkipped : Bool
  cycleIndex : Option ℚ
  reason : Str

/-- A normalized session record as returned by `normalizeSession`. -/
structure SessionRecord where
  sessionId : Str
  startedAt : Str
  endedAt : Str
  mode : Str
  plannedSeconds : Int
  actualSeconds : Int
  completionRatio : ℚ
  completed : Bool
  wasSkipped : Bool
  cycleIndex : Int
  reason : Str

/-- `toIso` (analytics-store.cjs 334-340): render the parsed timestamp, or
the current time when parsing failed. -/
def toIso (now : Int) : Option Int → Str
  | some ms => toISOString ms
  | none => toISOString now

/-- `normalizeMode` (analytics-store.cjs 342-347). -/
def normalizeMode (value : Str) : Str :=
  if value = "focus".data ∨ value = "shortBreak".data ∨ value = "longBreak".data then value
  else "focus".data

/-- `normalizeReason` (analytics-store.cjs 349-353). -/
def normalizeReason (reason : Str) : Str :=
  if reason = "completed".data ∨ reason = "skipped".data ∨ reason = "reset".data ∨
      reason = "reconfigured".data ∨ reason = "abandoned".data then reason
  else "abandoned".data

/-- `normalizeSession` (analytics-store.cjs 126-151).  `now` is the current
time in ms (for timestamp fallbacks) and `freshId` stands for the
synthesized `session_<time>_<random>` identifier used when the raw
`sessionId` is falsy.  The float literal `0.999` is the rational
`999 / 1000`. -/
def normalizeSession (now : Int) (freshId : Str) (s : RawSession) : SessionRecord :=
  let plannedSeconds : Int := max 1 (jsRound (parseSafeNumber s.plannedSeconds))
  let actualSeconds : Int := max 0 (jsRound (parseSafeNumber s.actualSeconds))
  let clampedActual : Int := min actualSeconds plannedSeconds
  let completionRatio : ℚ :=
    clampNumber
      (match s.completionRatio with
        | some r => r
        | none => (clampedActual : ℚ) / (plannedSeconds : ℚ))
      0 1
  { sessionId :=
      match s.sessionId with
      | some id => if id = [] then freshId else id
      | none => freshId
    startedAt := toIso now s.startedAt
    endedAt := toIso now s.endedAt
    mode := normalizeMode s.mode
    plannedSeconds := plannedSeconds
    actualSeconds := clampedActual
    completionRatio := completionRatio
    completed := s.completed || decide (completionRatio ≥ 999 / 1000)
    wasSkipped := s.wasSkipped
    cycleIndex :=
      max 1 (jsRound (if parseSafeNumber s.cycleIndex = 0 then 1 else parseSafeNumber s.cycleIndex))
    reason := normalizeReason s.reason }

theorem jsRound_intCast (a : Int) : jsRound ((a : ℚ)) = a := by
  rw [jsRound, Int.floor_eq_iff]
  constructor
  · linarith
  · push_cast
    linarith

theorem jsRound_nonpos (q : ℚ) (h : q ≤ 0) : jsRound q ≤ 0 := by
  rw [jsRound]
  have h2 : ⌊q + 1 / 2⌋ ≤ ⌊(1 / 2 : ℚ)⌋ := Int.floor_le_floor (by linarith)
  have h3 : ⌊(1 / 2 : ℚ)⌋ = 0 := by norm_num
  omega

/-- Clamping facts shared by the normalizer claims: plannedSeconds is at
least 1, actualSeconds lies in `[0, plannedSeconds]`, the completion ratio
lies in `[0, 1]`, and cycleIndex is at least 1. -/
theorem normalizeSession_bounds (now : Int) (freshId : Str) (s : RawSession) :
    1 ≤ (normalizeSession now freshId s).plannedSeconds ∧
    0 ≤ (normalizeSession now freshId s).actualSeconds ∧
    (normalizeSession now freshId s).actualSeconds ≤ (normalizeSession now freshId s).plannedSeconds ∧
    0 ≤ (normalizeSession now freshId s).completionRatio ∧
    (normalizeSession now freshId s).completionRatio ≤ 1 ∧
    1 ≤ (normalizeSession now freshId s).cycleIndex := by
  simp only [normalizeSession]
  refine ⟨le_max_left _ _, ?_, ?_, ?_, ?_, le_max_left _ _⟩
  · exact le_min (le_max_left _ _) (le_trans (by norm_num) (le_max_left _ _))
  · exact min_le_right _ _
  · exact le_min (le_max_right _ _) (by norm_num)
  · exact min_le_right _ _

/-! ## Front-end session finalization (`App.tsx` 364-405) -/

/-- An active session draft (`createSessionDraft`, App.tsx 191-201):
`startedAtMs` is the ms value of the draft's `startedAt` ISO string. -/
structure Draft where
  sessionId : Str
  mode : Str
  cycleIndex : Int
  plannedSeconds : Int
  startedAtMs : Int

/-- `createSessionDraft` (App.tsx 191-201): the duration is rounded and
forced up to at least 1 second. -/
def createSessionDraft (sessionId : Str) (mode : Str) (cycleIndex : Int)
    (plannedSeconds : ℚ) (nowMs : Int) : Draft :=
  { sessionId := sessionId
    mode := mode
    cycleIndex := cycleIndex
    plannedSeconds := max 1 (jsRound plannedSeconds)
    startedAtMs := nowMs }

/-- The `actualSeconds` computed by `finalizeActiveSession` (App.tsx
373-377): `Math.max(0, Math.min(planned, Math.round(forced ?? inferred)))`
with `inferred = draft.plannedSeconds - secondsLeft`. -/
def finalizeActual (draft : Draft) (secondsLeft : Int)
    (forcedActualSeconds : Option ℚ) : Int :=
  max 0 (min draft.plannedSeconds
    (jsRound (forcedActualSeconds.getD ((draft.plannedSeconds - secondsLeft : Int) : ℚ))))

/-- `finalizeActiveSession` (App.tsx 364-405): builds the payload passed to
`recordSession`, or returns `none` when the zero-signal guard
(`actualSeconds <= 0 && reason !== 'completed'`, App.tsx 379-381) returns
early.  The payload's `startedAt`/`endedAt` ISO strings are carried as
their `Date.parse` ms values. -/
def finalizeActiveSession (draft : Draft) (secondsLeft : Int) (reason : Str)
    (forcedActualSeconds : Option ℚ) (markSkipped : Bool) (nowMs : Int) :
    Option RawSession :=
  let actualSeconds := finalizeActual draft secondsLeft forcedActualSeconds
  if actualSeconds ≤ 0 ∧ reason ≠ "completed".data then none
  else
    let completionRatio : ℚ :=
      if 0 < draft.plannedSeconds then
        min 1 ((actualSeconds : ℚ) / (draft.plannedSeconds : ℚ))
      else 0
    some
      { sessionId := some draft.sessionId
        startedAt := some draft.startedAtMs
        endedAt := some nowMs
        mode := draft.mode
        plannedSeconds := some ((draft.plannedSeconds : ℚ))
        actualSeconds := some ((actualSeconds : ℚ))
        completionRatio := some completionRatio
        completed := decide (reason = "completed".data) || decide (completionRatio ≥ 999 / 1000)
        wasSkipped := markSkipped
        cycleIndex := some ((draft.cycleIndex : ℚ))
        reason := reason }

/-! ## Window aggregator (`summarizeWindow`, analytics-store.cjs 153-278) -/

/-- A record as consumed by the aggregator.  The rows produced by
`readAllRecords` carry `endedAt` as a string which the aggregator accesses
only through `Date.parse`; the record here therefore carries the parsed ms
value directly (`none` for an unparseable string).  Only the fields the
aggregator reads are retained. -/
structure AggRecord where
  endedMs : Option Int
  mode : Str
  plannedSeconds : ℚ
  actualSeconds : ℚ
  completionRatio : ℚ
  completed : Bool
deriving DecidableEq

/-- `DAY_MS` (analytics-store.cjs 20). -/
def DAY_MS : Int := 24 * 60 * 60 * 1000

/-- The UTC calendar date of a ms timestamp, as a day number: two
timestamps render to the same `toISOString().slice(0, 10)` date exactly
when their floor-division day numbers agree, and `setUTCDate(date - 1)`
steps the day number down by one. -/
def dayOf (ms : Int) : Int := ms.fdiv DAY_MS

/-- The window filter of `summarizeWindow` (analytics-store.cjs 154-162):
`dayWindow` is `none` for the unbounded window (`null`); a window of `0`
days is falsy in JS and also skips the filter. -/
def relevantRecords (records : List AggRecord) (dayWindow : Option Nat) (now : Int) :
    List AggRecord :=
  match dayWindow with
  | none => records
  | some w =>
    if w = 0 then records
    else records.filter fun r =>
      match r.endedMs with
      | some e => decide (now - (w : Int) * DAY_MS ≤ e)
      | none => false

/-- `getActiveDays` (analytics-store.cjs 229-237): the number of distinct
UTC dates among the parseable `endedAt` timestamps. -/
def getActiveDays (records : List AggRecord) : Nat :=
  (((records.filterMap AggRecord.endedMs).map dayOf).dedup).length

/-- The backward walk of `getStreakDays`: count consecutive days present in
`days`, starting at `d` and going backward, with fuel.  The code's
`while (true)` loop needs no fuel, but a run of `n` consecutive member
days requires `n` distinct elements, so fuel `days.length` (the size of
the `Set`) makes the two agree. -/
def countRun (days : List Int) : Int → Nat → Nat
  | _, 0 => 0
  | d, fuel + 1 => if d ∈ days then countRun days (d - 1) fuel + 1 else 0

/-- The day set built by `getStreakDays` (analytics-store.cjs 240-251):
distinct UTC dates of completed records with a parseable `endedAt` (the
caller has already restricted to focus mode). -/
def streakDaySet (records : List AggRecord) : List Int :=
  (((records.filter fun r => r.completed).filterMap AggRecord.endedMs).map dayOf).dedup

/-- `getStreakDays` (analytics-store.cjs 239-278): walk backward from the
current UTC date; when today is absent and nothing has been counted yet,
allow exactly one grace day by starting from yesterday; stop at the first
gap. -/
def getStreakDays (records : List AggRecord) (now : Int) : Nat :=
  let days := streakDaySet records
  if days = [] then 0
  else if dayOf now ∈ days then countRun days (dayOf now) days.length
  else countRun days (dayOf now - 1) days.length

/-- `clampNumber` over the reals, for the momentum pipeline. -/
def clampR (value lo hi : ℝ) : ℝ := min (max value lo) hi

/-- JS `Math.round` over the reals. -/
noncomputable def jsRoundR (x : ℝ) : Int := ⌊x + 1 / 2⌋

/-- `toSaturatingScore` (analytics-store.cjs 327-332). -/
noncomputable def toSaturatingScore (normalizedValue : ℝ) : Int :=
  let bounded := clampR normalizedValue 0 1
  let curve : ℝ := 4.5
  let saturated := (1 - Real.exp (-curve * bounded)) / (1 - Real.exp (-curve))
  jsRoundR (clampR saturated 0 1 * 100)

/-- `baseMomentum` (analytics-store.cjs 197-205). -/
def baseMomentum (completionRate averageCompletion consistencyRate streakMomentum
    deepFocusRate : ℝ) : ℝ :=
  clampR (completionRate * 0.35 + averageCompletion * 0.25 + consistencyRate * 0.2 +
    streakMomentum * 0.13 + deepFocusRate * 0.07) 0 1

/-- `interruptionPenalty` (analytics-store.cjs 207): `Math.pow(u, 0.7) * 0.32`. -/
noncomputable def interruptionPenalty (unfinishedRatio : ℝ) : ℝ :=
  unfinishedRatio ^ (0.7 : ℝ) * 0.32

/-- `adjustedMomentum` (analytics-store.cjs 208). -/
def adjustedMomentum (base penalty : ℝ) : ℝ := clampR (base - penalty) 0 1

/-- Steps 13-16 of the aggregation (analytics-store.cjs 197-209 and
327-332): the finish-pressure score as a function of the six rate
inputs. -/
noncomputable def finishPressure (completionRate averageCompletion consistencyRate
    streakMomentum deepFocusRate unfinishedRatio : ℝ) : Int :=
  toSaturatingScore (adjustedMomentum
    (baseMomentum completionRate averageCompletion consistencyRate streakMomentum deepFocusRate)
    (interruptionPenalty unfinishedRatio))

structure WindowSummary where
  windowDays : Option Nat
  totalSessions : Nat
  completedSessions : Nat
  unfinishedSessions : Nat
  completionRate : ℚ
  averageCompletion : ℚ
  totalPlannedSeconds : ℚ
  totalActualSeconds : ℚ
  focusActualSeconds : ℚ
  deepFocusSessions : Nat
  unfinishedSeconds : ℚ
  activeDays : Nat
  streakDays : Nat
  finishPressureScore : Int

/-- `summarizeWindow` (analytics-store.cjs 153-227), with the current time
`now` injected instead of `Date.now()`. -/
noncomputable def summarizeWindow (records : List AggRecord) (dayWindow : Option Nat)
    (now : Int) : WindowSummary :=
  let relevant := relevantRecords records dayWindow now
  let totalSessions := relevant.length
  let completedSessions := (relevant.filter fun r => r.completed).length
  let completionRate : ℚ :=
    if totalSessions = 0 then 0 else (completedSessions : ℚ) / (totalSessions : ℚ)
  let totalPlannedSeconds : ℚ := relevant.foldl (fun sum r => sum + r.plannedSeconds) 0
  let totalActualSeconds : ℚ := relevant.foldl (fun sum r => sum + r.actualSeconds) 0
  let focusSessions := relevant.filter fun r => decide (r.mode = ("focus".data : Str))
  let focusActualSeconds : ℚ := focusSessions.foldl (fun sum r => sum + r.actualSeconds) 0
  let deepFocusSessions :=
    (focusSessions.filter fun r => r.completed && decide ((45 * 60 : ℚ) ≤ r.actualSeconds)).length
  let unfinishedSessions := totalSessions - completedSessions
  let unfinishedSeconds : ℚ := max 0 (totalPlannedSeconds - totalActualSeconds)
  let averageCompletion : ℚ :=
    if totalSessions = 0 then 0
    else (relevant.foldl (fun sum r => sum + clampNumber r.completionRatio 0 1) 0) /
      (totalSessions : ℚ)
  let activeDays := getActiveDays relevant
  let streakDays := getStreakDays focusSessions now
  let consistencyRate : ℚ :=
    match dayWindow with
    | some w =>
      if 0 < w then clampNumber ((activeDays : ℚ) / (w : ℚ)) 0 1
      else clampNumber completionRate 0 1
    | none => clampNumber completionRate 0 1
  let deepFocusRate : ℚ :=
    if focusSessions.length = 0 then 0
    else clampNumber ((deepFocusSessions : ℚ) / (focusSessions.length : ℚ)) 0 1
  let streakMomentum : ℝ := 1 - Real.exp (-(streakDays : ℝ) / 6)
  let unfinishedRatio : ℚ :=
    if 0 < totalPlannedSeconds then clampNumber (unfinishedSeconds / totalPlannedSeconds) 0 1
    else 0
  { windowDays := dayWindow
    totalSessions := totalSessions
    completedSessions := completedSessions
    unfinishedSessions := unfinishedSessions
    completionRate := completionRate
    averageCompletion := averageCompletion
    totalPlannedSeconds := totalPlannedSeconds
    totalActualSeconds := totalActualSeconds
    focusActualSeconds := focusActualSeconds
    deepFocusSessions := deepFocusSessions
    unfinishedSeconds := unfinishedSeconds
    activeDays := activeDays
    streakDays := streakDays
    finishPressureScore :=
      finishPressure (completionRate : ℝ) (averageCompletion : ℝ) (consistencyRate : ℝ)
        streakMomentum (deepFocusRate : ℝ) (unfinishedRatio : ℝ) }

/-- The `streakDays` field of a summary is `getStreakDays` on the focus
subset of the window-filtered record list. -/
theorem summarizeWindow_streakDays (records : List AggRecord) (dayWindow : Option Nat)
    (now : Int) :
    (summarizeWindow records dayWindow now).streakDays =
      getStreakDays
        ((relevantRecords records dayWindow now).filter
          fun r => decide (r.mode = ("focus".data : Str))) now := rfl

/-! ## Record store (analytics-store.cjs 26-124) -/

/-- `CSV_HEADERS` (analytics-store.cjs 6-18). -/
def CSV_HEADERS : List Str :=
  ["session_id".data, "started_at".data, "ended_at".data, "mode".data,
   "planned_seconds".data, "actual_seconds".data, "completion_ratio".data,
   "completed".data, "was_skipped".data, "cycle_index".data, "reason".data]

/-- The file content written on fresh initialization:
`CSV_HEADERS.join(',') + '\n'`. -/
def headerFile : Str := joinComma CSV_HEADERS ++ ['\n']

/-- The store's state: the `initialized` flag, the content of
`sessions.csv` (`none` when the file does not exist) and a count of the
file writes performed, used to observe that re-initialization performs no
write. -/
structure StoreState where
  initialized : Bool
  file : Option Str
  writes : Nat

/-- `initialize` (analytics-store.cjs 34-45): short-circuit on the flag;
create the file with the header line only when it does not exist
(`fs.access` throws). -/
def initStore (s : StoreState) : StoreState :=
  if s.initialized then s
  else
    match s.file with
    | some _ => { s with initialized := true }
    | none => { initialized := true, file := some headerFile, writes := s.writes + 1 }

/-- The line built by `appendSession` (analytics-store.cjs 51-65) from the
normalized record. -/
def encodeRecordLine (r : SessionRecord) : Str :=
  encodeCsvLine
    [r.sessionId, r.startedAt, r.endedAt, r.mode, intRepr r.plannedSeconds,
     intRepr r.actualSeconds, toFixed4 r.completionRatio, boolRepr r.completed,
     boolRepr r.wasSkipped, intRepr r.cycleIndex, r.reason]

/-- `appendSession` (analytics-store.cjs 47-69): initialize, normalize,
append one line, return the normalized record. -/
def appendSession (now : Int) (freshId : Str) (s : StoreState) (raw : RawSession) :
    StoreState × SessionRecord :=
  let s1 := initStore s
  let record := normalizeSession now freshId raw
  ({ initialized := s1.initialized
     file := some ((s1.file.getD []) ++ encodeRecordLine record ++ ['\n'])
     writes := s1.writes + 1 }, record)

/-- `raw.split('\n')`. -/
def splitNl : Str → List Str
  | [] => [[]]
  | c :: rest =>
    if c = '\n' then [] :: splitNl rest
    else
      match splitNl rest with
      | h :: t => (c :: h) :: t
      | [] => [[c]]

/-- A record as returned by `readAllRecords` (analytics-store.cjs 108-120):
string cells stay strings, numeric cells go through `parseSafeNumber`,
boolean cells compare against the literal `'true'`. -/
structure ReadRecord where
  sessionId : Str
  startedAt : Str
  endedAt : Str
  mode : Str
  plannedSeconds : ℚ
  actualSeconds : ℚ
  completionRatio : ℚ
  completed : Bool
  wasSkipped : Bool
  cycleIndex : ℚ
  reason : Str
deriving DecidableEq

/-- The row destructuring of `readAllRecords` (analytics-store.cjs 93-121);
only applied to rows of length 11. -/
def coerceRow (row : List Str) : ReadRecord :=
  { sessionId := row.getD 0 []
    startedAt := row.getD 1 []
    endedAt := row.getD 2 []
    mode := row.getD 3 []
    plannedSeconds := parseSafeNumberStr (row.getD 4 [])
    actualSeconds := parseSafeNumberStr (row.getD 5 [])
    completionRatio := parseSafeNumberStr (row.getD 6 [])
    completed := decide (row.getD 7 [] = ("true".data : Str))
    wasSkipped := decide (row.getD 8 [] = ("true".data : Str))
    cycleIndex := parseSafeNumberStr (row.getD 9 [])
    reason := row.getD 10 [] }

/-- `readAllRecords` (analytics-store.cjs 84-123): split on raw newlines,
drop empty lines (`filter(Boolean)`), drop the header (`slice(1)`), decode
each line, keep only rows with exactly `CSV_HEADERS.length` fields,
coerce, and keep records whose numeric cores are finite (`parseSafeNumber`
never returns a non-finite value, so that last filter keeps every row). -/
def readAllRecords (file : Str) : List ReadRecord :=
  let lines := (splitNl file).filter fun l => decide (l ≠ [])
  if lines.length ≤ 1 then []
  else
    ((((lines.drop 1).map parseCsvLine).filter
      fun row => decide (row.length = CSV_HEADERS.length)).map coerceRow).filter
      fun _ => true

/-! ## Claims -/

/-- C1 counterexample: on the empty field tuple the round-trip fails, since
`''.split` scanning of the empty line still pushes one (empty) field:
`parseCsvLine(encode([])) = ['']`, not `[]`. -/
theorem c1_empty_tuple_fails :
    parseCsvLine (encodeCsvLine ([] : List Str)) ≠ ([] : List Str) := by
  rw [encodeCsvLine]
  simp only [List.map_nil]
  rw [show joinComma [] = ([] : Str) from rfl, parseCsvLine, parseCsvAux_nil]
  simp

/-- C1 (amended): codec round-trip for every non-empty tuple of field
values, including values containing the separator, the quote character or
embedded newlines: `parseCsvLine(fields.map(escapeCsv).join(',')) ==
fields`. -/
theorem c1_codec_roundtrip (fields : List Str) (h : fields ≠ []) :
    parseCsvLine (encodeCsvLine fields) = fields :=
  csv_roundtrip fields h

/-- C1 witness: the round-trip at a concrete tuple whose values contain a
comma, quotes, a newline and an empty field. -/
theorem c1_codec_roundtrip_witness :
    (["a,b".data, "say \"hi\"".data, "line1\nline2".data, "".data] : List Str) ≠ [] ∧
      parseCsvLine (encodeCsvLine
        ["a,b".data, "say \"hi\"".data, "line1\nline2".data, "".data]) =
        ["a,b".data, "say \"hi\"".data, "line1\nline2".data, "".data] :=
  ⟨by decide, c1_codec_roundtrip _ (by decide)⟩

/-- C6 counterexample: a raw `actualSeconds` greater than the raw
`plannedSeconds` is not always clamped to `plannedSeconds`: for raw
`plannedSeconds = -2`, `actualSeconds = -1` the normalizer yields
`plannedSeconds = 1` but `actualSeconds = 0`. -/
theorem c6_clamp_to_planned_fails :
    ((-1 : ℚ) > (-2 : ℚ)) ∧
      (normalizeSession 0 []
        { sessionId := none, startedAt := none, endedAt := none,
          mode := "focus".data, plannedSeconds := some (-2),
          actualSeconds := some (-1), completionRatio := none,
          completed := false, wasSkipped := false, cycleIndex := none,
          reason := "skipped".data }).actualSeconds ≠
      (normalizeSession 0 []
        { sessionId := none, startedAt := none, endedAt := none,
          mode := "focus".data, plannedSeconds := some (-2),
          actualSeconds := some (-1), completionRatio := none,
          completed := false, wasSkipped := false, cycleIndex := none,
          reason := "skipped".data }).plannedSeconds := by
  constructor
  · norm_num
  · have h1 : jsRound ((-1) : ℚ) = -1 := by
      rw [show ((-1) : ℚ) = (((-1) : ℤ) : ℚ) by norm_num, jsRound_intCast]
    have h2 : jsRound ((-2) : ℚ) = -2 := by
      rw [show ((-2) : ℚ) = (((-2) : ℤ) : ℚ) by norm_num, jsRound_intCast]
    simp only [normalizeSession, parseSafeNumber, Option.getD_some, h1, h2]
    decide

/-- C6 (amended): normalizer clamping postconditions.  For every raw event
the normalized record satisfies `plannedSeconds >= 1`, `0 <= actualSeconds
<= plannedSeconds` and `completionRatio ∈ [0, 1]`; any raw
`plannedSeconds <= 0` normalizes to `1`; and a raw `actualSeconds` is
clamped down to exactly `plannedSeconds` whenever its rounded value is at
least the normalized `plannedSeconds` (rather than whenever it merely
exceeds the raw `plannedSeconds`). -/
theorem c6_normalizer_clamping (now : Int) (freshId : Str) (s : RawSession) :
    1 ≤ (normalizeSession now freshId s).plannedSeconds ∧
    0 ≤ (normalizeSession now freshId s).actualSeconds ∧
    (normalizeSession now freshId s).actualSeconds ≤
      (normalizeSession now freshId s).plannedSeconds ∧
    0 ≤ (normalizeSession now freshId s).completionRatio ∧
    (normalizeSession now freshId s).completionRatio ≤ 1 ∧
    (∀ q : ℚ, s.plannedSeconds = some q → q ≤ 0 →
      (normalizeSession now freshId s).plannedSeconds = 1) ∧
    (∀ q : ℚ, s.actualSeconds = some q →
      (normalizeSession now freshId s).plannedSeconds ≤ jsRound q →
      (normalizeSession now freshId s).actualSeconds =
        (normalizeSession now freshId s).plannedSeconds) := by
  obtain ⟨h1, h2, h3, h4, h5, _⟩ := normalizeSession_bounds now freshId s
  refine ⟨h1, h2, h3, h4, h5, ?_, ?_⟩
  · intro q hq hq0
    simp only [normalizeSession, hq, parseSafeNumber, Option.getD_some]
    have : jsRound q ≤ 0 := jsRound_nonpos q hq0
    omega
  · intro q hq hle
    simp only [normalizeSession, hq, parseSafeNumber, Option.getD_some] at hle ⊢
    omega

/-- C6 witness: at raw `plannedSeconds = -5` the normalized value is `1`,
and a raw `actualSeconds = 99` (whose rounding is at least that) is
clamped to it. -/
theorem c6_normalizer_clamping_witness :
    (normalizeSession 0 []
      { sessionId := none, startedAt := none, endedAt := none,
        mode := "focus".data, plannedSeconds := some (-5),
        actualSeconds := some 99, completionRatio := none,
        completed := false, wasSkipped := false, cycleIndex := none,
        reason := "reset".data }).plannedSeconds = 1 ∧
    (normalizeSession 0 []
      { sessionId := none, startedAt := none, endedAt := none,
        mode := "focus".data, plannedSeconds := some (-5),
        actualSeconds := some 99, completionRatio := none,
        completed := false, wasSkipped := false, cycleIndex := none,
        reason := "reset".data }).actualSeconds =
    (normalizeSession 0 []
      { sessionId := none, startedAt := none, endedAt := none,
        mode := "focus".data, plannedSeconds := some (-5),
        actualSeconds := some 99, completionRatio := none,
        completed := false, wasSkipped := false, cycleIndex := none,
        reason := "reset".data }).plannedSeconds :=
  ⟨(c6_normalizer_clamping 0 [] _).2.2.2.2.2.1 (-5) rfl (by norm_num),
    (c6_normalizer_clamping 0 [] _).2.2.2.2.2.2 99 rfl (by
      have h99 : jsRound ((99 : ℚ)) = 99 := by
        rw [show ((99 : ℚ)) = (((99 : ℤ)) : ℚ) by norm_num, jsRound_intCast]
      have h5 : jsRound ((-5 : ℚ)) = -5 := by
        rw [show ((-5 : ℚ)) = (((-5 : ℤ)) : ℚ) by norm_num, jsRound_intCast]
      simp only [normalizeSession, parseSafeNumber, Option.getD_some, h5, h99]
      decide)⟩

/-- C9: idempotent initialization.  Calling `initialize()` `N >= 1` times
equals calling it once; a fresh store gets exactly the single header line;
an existing file is left unchanged (no data loss); and after the first
call the `initialized` flag short-circuits, so a repeated call performs no
further filesystem write. -/
theorem c9_idempotent_init (s : StoreState) (N : Nat) (hN : 1 ≤ N) :
    initStore^[N] s = initStore s ∧
    (initStore s).initialized = true ∧
    (s.initialized = false → s.file = none → (initStore s).file = some headerFile) ∧
    (∀ f, s.file = some f → (initStore s).file = some f) ∧
    (initStore (initStore s)).writes = (initStore s).writes := by
  have hinit : (initStore s).initialized = true := by
    rw [initStore]
    by_cases h : s.initialized
    · rw [if_pos h]; exact h
    · rw [if_neg h]
      cases s.file <;> rfl
  have hfix : initStore (initStore s) = initStore s := by
    rw [initStore, if_pos hinit]
  have hiter : ∀ n : Nat, initStore^[n] (initStore s) = initStore s := by
    intro n
    induction n with
    | zero => rfl
    | succ n ih => rw [Function.iterate_succ_apply, hfix, ih]
  refine ⟨?_, hinit, ?_, ?_, by rw [hfix]⟩
  · obtain ⟨m, rfl⟩ : ∃ m, N = m + 1 := ⟨N - 1, by omega⟩
    rw [Function.iterate_succ_apply, hiter]
  · intro h hf
    rw [initStore, if_neg (by simp [h]), hf]
  · intro f hf
    rw [initStore]
    by_cases h : s.initialized
    · rw [if_pos h]; exact hf
    · rw [if_neg h, hf]

/-! ### The streak walk -/

theorem countRun_notMem (days : List Int) (d : Int) (fuel : Nat) (h : d ∉ days) :
    countRun days d fuel = 0 := by
  cases fuel with
  | zero => rfl
  | succ f => rw [countRun, if_neg h]

/-- The walk counts exactly `n` when the `n` days before and including `d`
are present and the day `n` back is not. -/
theorem countRun_eq (days : List Int) :
    ∀ (n : Nat) (d : Int) (fuel : Nat), n ≤ fuel →
      (∀ k : Nat, k < n → d - (k : Int) ∈ days) → d - (n : Int) ∉ days →
      countRun days d fuel = n := by
  intro n
  induction n with
  | zero =>
    intro d fuel _ _ h0
    simp only [Nat.cast_zero, sub_zero] at h0
    exact countRun_notMem days d fuel h0
  | succ n ih =>
    intro d fuel hf hmem hout
    obtain ⟨f, rfl⟩ : ∃ f, fuel = f + 1 := ⟨fuel - 1, by omega⟩
    have hd : d ∈ days := by simpa using hmem 0 (by omega)
    rw [countRun, if_pos hd]
    have hrec : countRun days (d - 1) f = n := by
      apply ih
      · omega
      · intro k hk
        have := hmem (k + 1) (by omega)
        push_cast at this ⊢
        have he : d - 1 - (k : Int) = d - ((k : Int) + 1) := by ring
        rw [he]
        exact this
      · have he : d - 1 - (n : Int) = d - ((n : Int) + 1) := by ring
        rw [he]
        push_cast at hout
        exact hout
    omega

theorem three_mem_length (days : List Int) (hnd : days.Nodup) (t : Int)
    (h0 : t ∈ days) (h1 : t - 1 ∈ days) (h2 : t - 2 ∈ days) : 3 ≤ days.length := by
  have hsub : ({t, t - 1, t - 2} : Finset ℤ) ⊆ days.toFinset := by
    intro x hx
    simp only [Finset.mem_insert, Finset.mem_singleton] at hx
    rcases hx with rfl | rfl | rfl <;> simpa [List.mem_toFinset]
  have hcard : ({t, t - 1, t - 2} : Finset ℤ).card = 3 := by
    rw [Finset.card_insert_of_not_mem (by
        intro hm
        simp only [Finset.mem_insert, Finset.mem_singleton] at hm
        omega),
      Finset.card_insert_of_not_mem (by
        intro hm
        simp only [Finset.mem_singleton] at hm
        omega),
      Finset.card_singleton]
  have hle := Finset.card_le_card hsub
  rw [hcard, List.toFinset_card_of_nodup hnd] at hle
  exact hle

/-- C4: streak computation with one grace day, at a fixed current time.
(i) When the completed-focus day set contains today, yesterday and the day
before but not three days back, the streak is 3.  (ii) When it contains
only yesterday, the grace day applies and the streak is 1.  (iii) With no
completed sessions the streak is 0.  (`records` here plays the role of the
focus-mode subset handed to `getStreakDays`.) -/
theorem c4_streak_grace (records : List AggRecord) (now : Int) :
    (dayOf now ∈ streakDaySet records ∧ dayOf now - 1 ∈ streakDaySet records ∧
        dayOf now - 2 ∈ streakDaySet records ∧ dayOf now - 3 ∉ streakDaySet records →
      getStreakDays records now = 3) ∧
    (streakDaySet records ≠ [] ∧ (∀ d ∈ streakDaySet records, d = dayOf now - 1) →
      getStreakDays records now = 1) ∧
    (records.filter (fun r => r.completed) = [] → getStreakDays records now = 0) := by
  refine ⟨?_, ?_, ?_⟩
  · rintro ⟨h0, h1, h2, h3⟩
    have hne : streakDaySet records ≠ [] := fun he => by
      rw [he] at h0
      exact absurd h0 (List.not_mem_nil _)
    have hnd : (streakDaySet records).Nodup := List.nodup_dedup _
    simp only [getStreakDays]
    rw [if_neg hne, if_pos h0]
    apply countRun_eq
    · exact three_mem_length _ hnd _ h0 h1 h2
    · intro k hk
      interval_cases k
      · simpa using h0
      · simpa using h1
      · simpa using h2
    · simpa using h3
  · rintro ⟨hne, hall⟩
    have ht1 : dayOf now - 1 ∈ streakDaySet records := by
      cases hs : streakDaySet records with
      | nil => exact absurd hs hne
      | cons a l =>
        have ha := hall a (by rw [hs]; exact List.mem_cons_self _ _)
        rw [← ha]
        exact List.mem_cons_self _ _
    have hout : dayOf now ∉ streakDaySet records := by
      intro hin
      have := hall _ hin
      omega
    simp only [getStreakDays]
    rw [if_neg hne, if_neg hout]
    apply countRun_eq
    · have : 0 < (streakDaySet records).length := List.length_pos.mpr hne
      omega
    · intro k hk
      have : k = 0 := by omega
      subst this
      simpa using ht1
    · intro hin
      have := hall _ hin
      push_cast at this
      omega
  · intro h
    simp [getStreakDays, streakDaySet, h]

/-- C4 witness: the three streak scenarios at concrete record lists, with
`now` inside day 20 of the epoch. -/
theorem c4_streak_grace_witness :
    getStreakDays
      [⟨some (20 * 86400000), "focus".data, 1500, 1500, 1, true⟩,
       ⟨some (19 * 86400000 + 5000), "focus".data, 1500, 1500, 1, true⟩,
       ⟨some (18 * 86400000 + 60000), "focus".data, 1500, 1200, 1, true⟩]
      (20 * 86400000 + 123) = 3 ∧
    getStreakDays [⟨some (19 * 86400000 + 500), "focus".data, 1500, 1500, 1, true⟩]
      (20 * 86400000 + 123) = 1 ∧
    getStreakDays [⟨some (20 * 86400000), "focus".data, 1500, 300, 1, false⟩]
      (20 * 86400000 + 123) = 0 :=
  ⟨(c4_streak_grace _ _).1 (by decide),
   (c4_streak_grace _ _).2.1 (by decide),
   (c4_streak_grace _ _).2.2 (by decide)⟩

/-! ### Finish-pressure monotonicity -/

theorem clampR_mono (x y lo hi : ℝ) (h : x ≤ y) : clampR x lo hi ≤ clampR y lo hi :=
  min_le_min (max_le_max h (le_refl lo)) (le_refl hi)

theorem toSaturatingScore_mono (x y : ℝ) (h : x ≤ y) :
    toSaturatingScore x ≤ toSaturatingScore y := by
  simp only [toSaturatingScore, jsRoundR]
  have hc : clampR x 0 1 ≤ clampR y 0 1 := clampR_mono x y 0 1 h
  have hexp : Real.exp (-4.5 * clampR y 0 1) ≤ Real.exp (-4.5 * clampR x 0 1) :=
    Real.exp_le_exp.mpr (by nlinarith)
  have hden : (0 : ℝ) < 1 - Real.exp (-4.5) := by
    have hlt : Real.exp (-4.5) < 1 := Real.exp_lt_one_iff.mpr (by norm_num)
    linarith
  have hsat : (1 - Real.exp (-4.5 * clampR x 0 1)) / (1 - Real.exp (-4.5)) ≤
      (1 - Real.exp (-4.5 * clampR y 0 1)) / (1 - Real.exp (-4.5)) :=
    (div_le_div_right hden).mpr (by linarith)
  apply Int.floor_le_floor
  have hcs := clampR_mono _ _ 0 1 hsat
  nlinarith

/-- C8: finish-pressure monotonicity.  Viewing `finishPressureScore` as the
function of `completionRate` given by steps 13-16 (`baseMomentum`,
`interruptionPenalty`, `adjustedMomentum`, `toSaturatingScore`) with
`averageCompletion`, `consistencyRate`, `streakMomentum`, `deepFocusRate`
and `unfinishedRatio` held fixed, a larger `completionRate` never yields a
smaller score. -/
theorem c8_finish_pressure_monotone (avg cons sm df u c₁ c₂ : ℝ) (h : c₁ ≤ c₂) :
    finishPressure c₁ avg cons sm df u ≤ finishPressure c₂ avg cons sm df u := by
  apply toSaturatingScore_mono
  apply clampR_mono
  have hb : baseMomentum c₁ avg cons sm df ≤ baseMomentum c₂ avg cons sm df := by
    apply clampR_mono
    nlinarith
  linarith

/-- C8 witness: the monotonicity at `completionRate = 0` versus `1` with
the other inputs `0`. -/
theorem c8_finish_pressure_monotone_witness :
    ((0 : ℝ) ≤ 1) ∧ finishPressure 0 0 0 0 0 0 ≤ finishPressure 1 0 0 0 0 0 :=
  ⟨by norm_num, c8_finish_pressure_monotone 0 0 0 0 0 0 1 (by norm_num)⟩

/-! ### Completion flag and the zero-signal guard -/

/-- C3 counterexample: `normalizeSession` alone does not force
`completed = true` for `reason = 'completed'`: with input `completed =
false` and `completionRatio = 0.5` the normalized record keeps
`reason = 'completed'` but gets `completed = false` (the normalizer derives
`completed` from the input flag and the ratio only). -/
theorem c3_normalizer_ignores_reason :
    (normalizeSession 0 []
      { sessionId := some "s1".data, startedAt := none, endedAt := none,
        mode := "focus".data, plannedSeconds := some 100, actualSeconds := some 50,
        completionRatio := some (1 / 2), completed := false, wasSkipped := false,
        cycleIndex := some 1, reason := "completed".data }).reason = "completed".data ∧
    (normalizeSession 0 []
      { sessionId := some "s1".data, startedAt := none, endedAt := none,
        mode := "focus".data, plannedSeconds := some 100, actualSeconds := some 50,
        completionRatio := some (1 / 2), completed := false, wasSkipped := false,
        cycleIndex := some 1, reason := "completed".data }).completed = false := by
  constructor
  · decide
  · simp only [normalizeSession, clampNumber]
    simp only [Bool.false_or, decide_eq_false_iff_not]
    rw [max_eq_left (by norm_num : (0 : ℚ) ≤ 1 / 2),
      min_eq_left (by norm_num : (1 : ℚ) / 2 ≤ 1)]
    norm_num

/-- C3 (amended): completed flag follows reason through the finalization
pipeline.  For every finalization with `reason = 'completed'`,
`finalizeActiveSession` produces a payload (the zero-signal guard never
fires for it) whose `completed` flag is set, and `normalizeSession` on
that payload yields `completed = true` regardless of the completion
ratio. -/
theorem c3_completed_via_pipeline (draft : Draft) (secondsLeft : Int)
    (forced : Option ℚ) (markSkipped : Bool) (nowMs now2 : Int) (freshId : Str) :
    ∃ p, finalizeActiveSession draft secondsLeft "completed".data forced markSkipped nowMs =
        some p ∧
      (normalizeSession now2 freshId p).completed = true := by
  simp only [finalizeActiveSession]
  rw [if_neg (by simp)]
  refine ⟨_, rfl, ?_⟩
  simp [normalizeSession]

/-- C5 counterexample: `appendSession` itself never checks the zero-signal
invariant: a raw event with `actualSeconds = 0` and `reason = 'skipped'`
is normalized to `actualSeconds = 0` with a non-completed reason and still
written (one more file write than initialization alone). -/
theorem c5_append_has_no_guard :
    ((appendSession 0 [] ⟨false, none, 0⟩
      { sessionId := some "s1".data, startedAt := none, endedAt := none,
        mode := "shortBreak".data, plannedSeconds := some 600, actualSeconds := some 0,
        completionRatio := none, completed := false, wasSkipped := true,
        cycleIndex := some 1, reason := "skipped".data }).2.actualSeconds = 0) ∧
    ((appendSession 0 [] ⟨false, none, 0⟩
      { sessionId := some "s1".data, startedAt := none, endedAt := none,
        mode := "shortBreak".data, plannedSeconds := some 600, actualSeconds := some 0,
        completionRatio := none, completed := false, wasSkipped := true,
        cycleIndex := some 1, reason := "skipped".data }).2.reason ≠ "completed".data) ∧
    ((appendSession 0 [] ⟨false, none, 0⟩
      { sessionId := some "s1".data, startedAt := none, endedAt := none,
        mode := "shortBreak".data, plannedSeconds := some 600, actualSeconds := some 0,
        completionRatio := none, completed := false, wasSkipped := true,
        cycleIndex := some 1, reason := "skipped".data }).1.writes =
      (initStore ⟨false, none, 0⟩).writes + 1) := by
  refine ⟨?_, ?_, ?_⟩
  · have h0 : jsRound ((0 : ℚ)) = 0 := by
      rw [show ((0 : ℚ)) = (((0 : ℤ)) : ℚ) by norm_num, jsRound_intCast]
    have h600 : jsRound ((600 : ℚ)) = 600 := by
      rw [show ((600 : ℚ)) = (((600 : ℤ)) : ℚ) by norm_num, jsRound_intCast]
    simp only [appendSession, normalizeSession, parseSafeNumber, Option.getD_some, h0, h600]
    decide
  · decide
  · decide

/-- C5 (amended): zero-signal records are never persisted through the
session-finalization path.  When the computed `actualSeconds` is `0` and
the reason is not `'completed'`, `finalizeActiveSession` returns early and
nothing reaches the store; and any payload it does emit normalizes to a
record that cannot have both `actualSeconds = 0` and a non-completed
reason.  The check lives in the front end: `appendSession` itself performs
no such filtering. -/
theorem c5_zero_signal_guard (draft : Draft) (secondsLeft : Int) (reason : Str)
    (forced : Option ℚ) (markSkipped : Bool) (nowMs now2 : Int) (freshId : Str) :
    (finalizeActual draft secondsLeft forced = 0 → reason ≠ "completed".data →
      finalizeActiveSession draft secondsLeft reason forced markSkipped nowMs = none) ∧
    (∀ p, finalizeActiveSession draft secondsLeft reason forced markSkipped nowMs = some p →
      ¬((normalizeSession now2 freshId p).actualSeconds = 0 ∧
        (normalizeSession now2 freshId p).reason ≠ "completed".data)) := by
  constructor
  · intro h0 hr
    simp only [finalizeActiveSession]
    rw [if_pos ⟨by omega, hr⟩]
  · intro p hp
    by_cases hg : finalizeActual draft secondsLeft forced ≤ 0 ∧ reason ≠ "completed".data
    · simp only [finalizeActiveSession] at hp
      rw [if_pos hg] at hp
      exact absurd hp (by simp)
    · simp only [finalizeActiveSession] at hp
      rw [if_neg hg] at hp
      have hpe := Option.some.inj hp
      subst hpe
      push_neg at hg
      rintro ⟨ha, hr⟩
      by_cases hz : finalizeActual draft secondsLeft forced ≤ 0
      · have hre := hg hz
        apply hr
        simp only [normalizeSession, hre]
        simp [normalizeReason]
      · push_neg at hz
        have hcA : jsRound (((finalizeActual draft secondsLeft forced : ℤ)) : ℚ) =
            finalizeActual draft secondsLeft forced := jsRound_intCast _
        have hcP : jsRound (((draft.plannedSeconds : ℤ)) : ℚ) = draft.plannedSeconds :=
          jsRound_intCast _
        simp only [normalizeSession, parseSafeNumber, Option.getD_some, hcA, hcP] at ha
        omega

/-- C5 witness: a reset at `secondsLeft = plannedSeconds` (nothing elapsed)
with a non-completed reason is not persisted. -/
theorem c5_zero_signal_guard_witness :
    finalizeActiveSession ⟨"d1".data, "focus".data, 1, 10, 0⟩ 10 "reset".data none false 0 =
      none :=
  (c5_zero_signal_guard ⟨"d1".data, "focus".data, 1, 10, 0⟩ 10 "reset".data none false 0 0
    []).1
    (by
      simp only [finalizeActual, Option.getD]
      rw [jsRound_intCast]
      decide)
    (by decide)

/-- C9 witness: three initializations of a fresh store equal one, and the
file holds exactly the header line. -/
theorem c9_idempotent_init_witness :
    initStore^[3] ⟨false, none, 0⟩ = initStore ⟨false, none, 0⟩ ∧
      (initStore ⟨false, none, 0⟩).file = some headerFile :=
  ⟨(c9_idempotent_init ⟨false, none, 0⟩ 3 (by norm_num)).1,
   (c9_idempotent_init ⟨false, none, 0⟩ 3 (by norm_num)).2.2.1 rfl rfl⟩

/-! ### Window (in)dependence of the streak -/

/-- Equal day sets give equal streaks. -/
theorem getStreakDays_congr (l₁ l₂ : List AggRecord) (now : Int)
    (h : streakDaySet l₁ = streakDaySet l₂) :
    getStreakDays l₁ now = getStreakDays l₂ now := by
  simp only [getStreakDays, h]

/-- When every parseable `endedAt` is within the window, the window filter
changes only records that contribute nothing to the parsed-timestamp list,
under any further filters. -/
theorem filterMap_window_of_within (cut : Int) (S : AggRecord → Bool) :
    ∀ (records : List AggRecord),
      (∀ r ∈ records, ∀ e, r.endedMs = some e → cut ≤ e) →
      ((records.filter fun r =>
          S r && match r.endedMs with
            | some e => decide (cut ≤ e)
            | none => false).filterMap AggRecord.endedMs) =
        ((records.filter S).filterMap AggRecord.endedMs) := by
  intro records
  induction records with
  | nil => intro _; rfl
  | cons r t ih =>
    intro h
    have ht := ih fun x hx e he => h x (List.mem_cons_of_mem _ hx) e he
    cases hr : r.endedMs with
    | none =>
      by_cases hS : S r <;>
        simp [List.filter_cons, List.filterMap_cons, hr, hS, ht]
    | some e =>
      have hce : cut ≤ e := h r (List.mem_cons_self _ _) e hr
      by_cases hS : S r <;>
        simp [List.filter_cons, List.filterMap_cons, hr, hS, hce, ht]

/-- C2 counterexample: the streak is built from the window-filtered record
set, so it is not window-independent.  Ten consecutive daily focus
completions ending at day 20 give a 10-day streak in the unbounded window
but only 8 in the 7-day window (days 11 and 12 fall outside it). -/
theorem c2_streak_depends_on_window :
    (summarizeWindow
      [⟨some (20 * 86400000), "focus".data, 1500, 1500, 1, true⟩,
       ⟨some (19 * 86400000), "focus".data, 1500, 1500, 1, true⟩,
       ⟨some (18 * 86400000), "focus".data, 1500, 1500, 1, true⟩,
       ⟨some (17 * 86400000), "focus".data, 1500, 1500, 1, true⟩,
       ⟨some (16 * 86400000), "focus".data, 1500, 1500, 1, true⟩,
       ⟨some (15 * 86400000), "focus".data, 1500, 1500, 1, true⟩,
       ⟨some (14 * 86400000), "focus".data, 1500, 1500, 1, true⟩,
       ⟨some (13 * 86400000), "focus".data, 1500, 1500, 1, true⟩,
       ⟨some (12 * 86400000), "focus".data, 1500, 1500, 1, true⟩,
       ⟨some (11 * 86400000), "focus".data, 1500, 1500, 1, true⟩]
      (some 7) (20 * 86400000)).streakDays ≠
    (summarizeWindow
      [⟨some (20 * 86400000), "focus".data, 1500, 1500, 1, true⟩,
       ⟨some (19 * 86400000), "focus".data, 1500, 1500, 1, true⟩,
       ⟨some (18 * 86400000), "focus".data, 1500, 1500, 1, true⟩,
       ⟨some (17 * 86400000), "focus".data, 1500, 1500, 1, true⟩,
       ⟨some (16 * 86400000), "focus".data, 1500, 1500, 1, true⟩,
       ⟨some (15 * 86400000), "focus".data, 1500, 1500, 1, true⟩,
       ⟨some (14 * 86400000), "focus".data, 1500, 1500, 1, true⟩,
       ⟨some (13 * 86400000), "focus".data, 1500, 1500, 1, true⟩,
       ⟨some (12 * 86400000), "focus".data, 1500, 1500, 1, true⟩,
       ⟨some (11 * 86400000), "focus".data, 1500, 1500, 1, true⟩]
      none (20 * 86400000)).streakDays := by
  rw [summarizeWindow_streakDays, summarizeWindow_streakDays]
  decide

/-- C2 (amended): the streak agrees between a finite window and the
unbounded window whenever every record with a parseable `endedAt` lies
within the window cutoff; in general the `streakDays` of
`summarizeWindow` is computed from the window-filtered focus subset, not
from the whole history. -/
theorem c2_streak_window_agreement (records : List AggRecord) (w : Nat) (now : Int)
    (h : (records.all fun r =>
      match r.endedMs with
      | some e => decide (now - (w : Int) * DAY_MS ≤ e)
      | none => true) = true) :
    (summarizeWindow records (some w) now).streakDays =
      (summarizeWindow records none now).streakDays := by
  rw [summarizeWindow_streakDays, summarizeWindow_streakDays]
  by_cases hw : w = 0
  · subst hw
    rfl
  · have hrel : relevantRecords records (some w) now =
        records.filter fun r =>
          match r.endedMs with
          | some e => decide (now - (w : Int) * DAY_MS ≤ e)
          | none => false := by
      simp only [relevantRecords]
      rw [if_neg hw]
    rw [hrel]
    show getStreakDays _ now = getStreakDays _ now
    apply getStreakDays_congr
    simp only [streakDaySet]
    congr 1
    congr 1
    rw [List.filter_filter, List.filter_filter, List.filter_filter]
    apply filterMap_window_of_within
    intro r hr e he
    rw [List.all_eq_true] at h
    have := h r hr
    rw [he] at this
    simpa using this

/-- C2 witness: two in-window focus completions give the same streak for
the 7-day and the unbounded window. -/
theorem c2_streak_window_agreement_witness :
    (summarizeWindow
      [⟨some (20 * 86400000), "focus".data, 1500, 1500, 1, true⟩,
       ⟨some (19 * 86400000), "focus".data, 1500, 1500, 1, true⟩]
      (some 7) (20 * 86400000)).streakDays =
    (summarizeWindow
      [⟨some (20 * 86400000), "focus".data, 1500, 1500, 1, true⟩,
       ⟨some (19 * 86400000), "focus".data, 1500, 1500, 1, true⟩]
      none (20 * 86400000)).streakDays :=
  c2_streak_window_agreement _ 7 _ (by decide)

/-! ### Splitting a file into lines -/

theorem splitNl_ne_nil (s : Str) : splitNl s ≠ [] := by
  cases s with
  | nil => simp [splitNl]
  | cons c rest =>
    rw [splitNl]
    by_cases hc : c = '\n'
    · simp [hc]
    · rw [if_neg hc]
      cases h : splitNl rest <;> simp

theorem splitNl_append_nl (x : Str) :
    ∀ (rest : Str), '\n' ∉ x → splitNl (x ++ '\n' :: rest) = x :: splitNl rest := by
  induction x with
  | nil =>
    intro rest _
    show splitNl ('\n' :: rest) = [] :: splitNl rest
    rw [splitNl]
    simp
  | cons c x ih =>
    intro rest h
    have hc : c ≠ '\n' := fun he => h (by simp [he])
    have hx : '\n' ∉ x := fun hm => h (List.mem_cons_of_mem _ hm)
    show splitNl (c :: (x ++ '\n' :: rest)) = _
    rw [splitNl, if_neg hc, ih rest hx]

/-- A file made of newline-terminated lines; every store file the system
itself writes has this shape. -/
def unlines (L : List Str) : Str := L.flatMap fun l => l ++ ['\n']

theorem splitNl_unlines (L : List Str) :
    ∀ (rest : Str), (∀ l ∈ L, '\n' ∉ l) →
      splitNl (unlines L ++ rest) = L ++ splitNl rest := by
  induction L with
  | nil => intro rest _; simp [unlines]
  | cons l L ih =>
    intro rest h
    have hl : '\n' ∉ l := h l (List.mem_cons_self _ _)
    have hL : ∀ x ∈ L, '\n' ∉ x := fun x hx => h x (List.mem_cons_of_mem _ hx)
    have hshape : unlines (l :: L) ++ rest = l ++ '\n' :: (unlines L ++ rest) := by
      simp [unlines, List.flatMap_cons]
    rw [hshape, splitNl_append_nl l _ hl, ih rest hL]
    simp

theorem splitNl_no_nl (s : Str) : ∀ p ∈ splitNl s, '\n' ∉ p := by
  induction s with
  | nil =>
    intro p hp
    simp [splitNl] at hp
    subst hp
    simp
  | cons c rest ih =>
    intro p hp
    rw [splitNl] at hp
    by_cases hc : c = '\n'
    · rw [if_pos hc] at hp
      rcases List.mem_cons.mp hp with rfl | hmem
      · simp
      · exact ih p hmem
    · rw [if_neg hc] at hp
      cases hs : splitNl rest with
      | nil => exact absurd hs (splitNl_ne_nil rest)
      | cons hh tt =>
        rw [hs] at hp
        rcases List.mem_cons.mp hp with rfl | hmem
        · intro hmm
          rcases List.mem_cons.mp hmm with he | hm2
          · exact hc he.symm
          · exact ih hh (by rw [hs]; exact List.mem_cons_self _ _) hm2
        · exact ih p (by rw [hs]; exact List.mem_cons_of_mem _ hmem)

/-- Every character of every field produced by the scanner comes from the
initial accumulator or from the input line. -/
theorem parseCsvAux_chars :
    ∀ (fuel : Nat) (s : Str), s.length ≤ fuel → ∀ (acc : Str) (q : Bool) (f : Str) (c : Char),
      f ∈ parseCsvAux s acc q → c ∈ f → c ∈ acc ∨ c ∈ s := by
  intro fuel
  induction fuel with
  | zero =>
    intro s hs acc q f c hf hc
    have hnil : s = [] := by cases s <;> simp at hs ⊢
    subst hnil
    rw [parseCsvAux_nil] at hf
    simp at hf
    subst hf
    exact Or.inl hc
  | succ n ih =>
    intro s hs acc q f c hf hc
    cases s with
    | nil =>
      rw [parseCsvAux_nil] at hf
      simp at hf
      subst hf
      exact Or.inl hc
    | cons c0 rest =>
      simp only [List.length_cons] at hs
      by_cases h0 : c0 = '"'
      · subst h0
        by_cases hq : q = true ∧ rest.head? = some '"'
        · obtain ⟨rfl, hq2⟩ := hq
          cases rest with
          | nil => simp at hq2
          | cons r1 rest2 =>
            simp only [List.head?_cons, Option.some_inj] at hq2
            subst hq2
            rw [parseCsvAux_dquote] at hf
            have hres := ih rest2 (by simp at hs; omega) (acc ++ ['"']) true f c hf hc
            rcases hres with h | h
            · rcases List.mem_append.mp h with h | h
              · exact Or.inl h
              · simp at h
                subst h
                exact Or.inr (by simp)
            · exact Or.inr (by simp [h])
        · cases q with
          | false =>
            rw [parseCsvAux_quote_open] at hf
            have hres := ih rest (by omega) acc true f c hf hc
            rcases hres with h | h
            · exact Or.inl h
            · exact Or.inr (List.mem_cons_of_mem _ h)
          | true =>
            have hh : rest.head? ≠ some '"' := fun hcon => hq ⟨rfl, hcon⟩
            rw [parseCsvAux_quote_close _ _ hh] at hf
            have hres := ih rest (by omega) acc false f c hf hc
            rcases hres with h | h
            · exact Or.inl h
            · exact Or.inr (List.mem_cons_of_mem _ h)
      · by_cases hcm : c0 = ',' ∧ q = false
        · obtain ⟨rfl, rfl⟩ := hcm
          rw [parseCsvAux_comma] at hf
          rcases List.mem_cons.mp hf with rfl | hmem
          · exact Or.inl hc
          · have hres := ih rest (by omega) [] false f c hmem hc
            rcases hres with h | h
            · simp at h
            · exact Or.inr (List.mem_cons_of_mem _ h)
        · rw [parseCsvAux_char c0 rest acc q h0 (by
            intro hcon
            exact hcm ⟨hcon.1, hcon.2⟩)] at hf
          have hres := ih rest (by omega) (acc ++ [c0]) q f c hf hc
          rcases hres with h | h
          · rcases List.mem_append.mp h with h | h
            · exact Or.inl h
            · simp at h
              subst h
              exact Or.inr (by simp)
          · exact Or.inr (List.mem_cons_of_mem _ h)

/-- No record returned by `readAllRecords` can carry a newline inside its
`sessionId`: the file is split on raw newlines before any decoding. -/
theorem readAllRecords_no_nl (file : Str) :
    ∀ rec ∈ readAllRecords file, '\n' ∉ rec.sessionId := by
  intro rec hrec
  rw [readAllRecords] at hrec
  by_cases hlen : ((splitNl file).filter fun l => decide (l ≠ [])).length ≤ 1
  · rw [if_pos hlen] at hrec
    simp at hrec
  · rw [if_neg hlen] at hrec
    rw [List.mem_filter] at hrec
    obtain ⟨hmem, _⟩ := hrec
    rw [List.mem_map] at hmem
    obtain ⟨row, hrow, hco⟩ := hmem
    rw [List.mem_filter] at hrow
    obtain ⟨hrowm, _⟩ := hrow
    rw [List.mem_map] at hrowm
    obtain ⟨piece, hpiece, hparse⟩ := hrowm
    have hpmem : piece ∈ splitNl file := by
      have h1 : piece ∈ (splitNl file).filter fun l => decide (l ≠ []) :=
        List.drop_subset 1 _ hpiece
      exact (List.mem_filter.mp h1).1
    have hnl : '\n' ∉ piece := splitNl_no_nl file piece hpmem
    subst hco
    cases hrs : row with
    | nil => simp [coerceRow, hrs]
    | cons f frest =>
      show '\n' ∉ (coerceRow (f :: frest)).sessionId
      have hn1 : (coerceRow (f :: frest)).sessionId = f := rfl
      rw [hn1]
      intro hcf
      have hfm : f ∈ parseCsvLine piece := by
        rw [hparse, hrs]
        exact List.mem_cons_self _ _
      have := parseCsvAux_chars piece.length piece (le_refl _) [] false f '\n' hfm hcf
      rcases this with h | h
      · simp at h
      · exact hnl h

/-! ### The encoded line of a normalized record contains no raw newline -/

theorem mem_doubleQuotes (s : Str) (c : Char) (hc : c ≠ '"') (h : c ∈ doubleQuotes s) :
    c ∈ s := by
  rw [doubleQuotes] at h
  rw [List.mem_flatMap] at h
  obtain ⟨a, ha, hm⟩ := h
  by_cases ha2 : a = '"'
  · rw [if_pos ha2] at hm
    simp at hm
    exact absurd hm hc
  · rw [if_neg ha2] at hm
    simp at hm
    subst hm
    exact ha

theorem nl_not_mem_escapeCsv (s : Str) (h : '\n' ∉ s) : '\n' ∉ escapeCsv s := by
  rw [escapeCsv]
  by_cases hq : needsQuoting s
  · rw [if_pos hq]
    intro hm
    rcases List.mem_cons.mp hm with he | hm2
    · exact absurd he (by decide)
    · rcases List.mem_append.mp hm2 with h3 | h4
      · exact h (mem_doubleQuotes s _ (by decide) h3)
      · simp at h4
  · rw [if_neg hq]
    exact h

theorem nl_not_mem_joinComma (ls : List Str) (h : ∀ s ∈ ls, '\n' ∉ s) :
    '\n' ∉ joinComma ls := by
  induction ls with
  | nil => simp [joinComma]
  | cons s rest ih =>
    cases rest with
    | nil => simpa [joinComma] using h s (by simp)
    | cons s2 rest2 =>
      show '\n' ∉ s ++ ',' :: joinComma (s2 :: rest2)
      intro hm
      rcases List.mem_append.mp hm with h1 | h2
      · exact h s (by simp) h1
      · rcases List.mem_cons.mp h2 with he | h3
        · exact absurd he (by decide)
        · exact ih (fun x hx => h x (List.mem_cons_of_mem _ hx)) h3

theorem nl_not_mem_toIso (now : Int) (o : Option Int) : '\n' ∉ toIso now o := by
  cases o <;> exact nl_not_mem_toISOString _

theorem nl_not_mem_normalizeMode (v : Str) : '\n' ∉ normalizeMode v := by
  rw [normalizeMode]
  by_cases h : v = "focus".data ∨ v = "shortBreak".data ∨ v = "longBreak".data
  · rw [if_pos h]
    rcases h with rfl | rfl | rfl <;> decide
  · rw [if_neg h]
    decide

theorem nl_not_mem_normalizeReason (v : Str) : '\n' ∉ normalizeReason v := by
  rw [normalizeReason]
  by_cases h : v = "completed".data ∨ v = "skipped".data ∨ v = "reset".data ∨
      v = "reconfigured".data ∨ v = "abandoned".data
  · rw [if_pos h]
    rcases h with rfl | rfl | rfl | rfl | rfl <;> decide
  · rw [if_neg h]
    decide

theorem normalizeSession_startedAt (now : Int) (freshId : Str) (s : RawSession) :
    (normalizeSession now freshId s).startedAt = toIso now s.startedAt := rfl

theorem normalizeSession_endedAt (now : Int) (freshId : Str) (s : RawSession) :
    (normalizeSession now freshId s).endedAt = toIso now s.endedAt := rfl

theorem normalizeSession_mode (now : Int) (freshId : Str) (s : RawSession) :
    (normalizeSession now freshId s).mode = normalizeMode s.mode := rfl

theorem normalizeSession_reason (now : Int) (freshId : Str) (s : RawSession) :
    (normalizeSession now freshId s).reason = normalizeReason s.reason := rfl

/-- When the normalized `sessionId` is newline-free, so is the whole
encoded CSV line: every other field renders to newline-free text. -/
theorem nl_not_mem_encodeRecordLine (now : Int) (freshId : Str) (raw : RawSession)
    (hsid : '\n' ∉ (normalizeSession now freshId raw).sessionId) :
    '\n' ∉ encodeRecordLine (normalizeSession now freshId raw) := by
  rw [encodeRecordLine, encodeCsvLine]
  apply nl_not_mem_joinComma
  intro s hs
  rw [List.mem_map] at hs
  obtain ⟨f, hf, rfl⟩ := hs
  apply nl_not_mem_escapeCsv
  simp only [List.mem_cons, List.not_mem_nil, or_false] at hf
  rcases hf with rfl | rfl | rfl | rfl | rfl | rfl | rfl | rfl | rfl | rfl | rfl
  · exact hsid
  · rw [normalizeSession_startedAt]
    exact nl_not_mem_toIso _ _
  · rw [normalizeSession_endedAt]
    exact nl_not_mem_toIso _ _
  · rw [normalizeSession_mode]
    exact nl_not_mem_normalizeMode _
  · exact nl_not_mem_intRepr _
  · exact nl_not_mem_intRepr _
  · exact nl_not_mem_toFixed4 _
  · exact nl_not_mem_boolRepr _
  · exact nl_not_mem_boolRepr _
  · exact nl_not_mem_intRepr _
  · rw [normalizeSession_reason]
    exact nl_not_mem_normalizeReason _

theorem encodeCsvLine_ne_nil (a b : Str) (t : List Str) :
    encodeCsvLine (a :: b :: t) ≠ [] := by
  show escapeCsv a ++ ',' :: joinComma (escapeCsv b :: t.map escapeCsv) ≠ []
  cases h : escapeCsv a <;> simp

/-! ### Reading back an appended line -/

/-- Appending one newline-free, 11-field line to a well-formed file and
reading everything back: the old lines decode as before and the new line
decodes, with the new record last. -/
theorem readAllRecords_append (L : List Str) (line : Str)
    (hL : ∀ l ∈ L, '\n' ∉ l) (hline : '\n' ∉ line)
    (hne : ∃ l ∈ L, l ≠ []) (hlnn : line ≠ [])
    (hlen : (parseCsvLine line).length = CSV_HEADERS.length) :
    readAllRecords (unlines L ++ line ++ ['\n']) =
      (((((L.filter fun l => decide (l ≠ [])).drop 1).map parseCsvLine).filter
        fun row => decide (row.length = CSV_HEADERS.length)).map coerceRow)
        ++ [coerceRow (parseCsvLine line)] := by
  have hsplit : splitNl (unlines L ++ line ++ ['\n']) = L ++ [line, []] := by
    rw [List.append_assoc, splitNl_unlines L (line ++ ['\n']) hL]
    have : line ++ ['\n'] = line ++ '\n' :: [] := rfl
    rw [this, splitNl_append_nl line [] hline]
    rfl
  rw [readAllRecords]
  rw [hsplit]
  have hfl : (L ++ [line, []]).filter (fun l => decide (l ≠ [])) =
      (L.filter fun l => decide (l ≠ [])) ++ [line] := by
    rw [List.filter_append]
    congr 1
    simp [hlnn]
  rw [hfl]
  obtain ⟨l0, hl0, hl0ne⟩ := hne
  have hAne : (L.filter fun l => decide (l ≠ [])) ≠ [] := by
    intro hcon
    have : l0 ∈ (L.filter fun l => decide (l ≠ [])) :=
      List.mem_filter.mpr ⟨hl0, by simpa using hl0ne⟩
    rw [hcon] at this
    exact absurd this (List.not_mem_nil _)
  have hAlen : 0 < (L.filter fun l => decide (l ≠ [])).length :=
    List.length_pos.mpr hAne
  have hg : ¬(((L.filter fun l => decide (l ≠ [])) ++ [line]).length ≤ 1) := by
    rw [List.length_append]
    simp only [List.length_cons, List.length_nil]
    omega
  rw [if_neg hg]
  cases hA : (L.filter fun l => decide (l ≠ [])) with
  | nil => exact absurd hA hAne
  | cons a0 A =>
    simp only [List.cons_append, List.drop_succ_cons, List.drop_zero]
    rw [List.map_append, List.filter_append, List.map_append]
    congr 1
    simp [hlen]

/-- C7: corruption tolerance of reads.  A file holding the header line, a
truncated record line with 3 missing fields (8 of 11), a blank line, and
one well-formed record line yields exactly the one well-formed record, in
file order: the header and blank lines are dropped, the short row fails
the 11-column check and is discarded, and the surviving line is decoded
and coerced. -/
theorem c7_corruption_tolerance :
    readAllRecords
      (unlines [joinComma CSV_HEADERS,
        encodeCsvLine ["s2".data, "2025-01-01T00:00:00.000Z".data,
          "2025-01-02T00:00:00.000Z".data, "shortBreak".data, "600".data, "200".data,
          "0.3333".data, "false".data], []] ++
        encodeCsvLine ["s1".data, "2025-01-01T00:00:00.000Z".data,
          "2025-01-02T00:00:00.000Z".data, "focus".data, "1500".data, "1500".data,
          "1.0000".data, "true".data, "false".data, "1".data, "completed".data] ++ ['\n']) =
      [{ sessionId := "s1".data, startedAt := "2025-01-01T00:00:00.000Z".data,
         endedAt := "2025-01-02T00:00:00.000Z".data, mode := "focus".data,
         plannedSeconds := 1500, actualSeconds := 1500, completionRatio := 1,
         completed := true, wasSkipped := false, cycleIndex := 1,
         reason := "completed".data }] := by
  rw [readAllRecords_append _ _
    (by
      intro l hl
      simp only [List.mem_cons, List.not_mem_nil, or_false] at hl
      rcases hl with rfl | rfl | rfl
      · decide
      · decide
      · simp)
    (by decide) ⟨joinComma CSV_HEADERS, by simp, by decide⟩ (by decide)
    (by rw [csv_roundtrip _ (by decide)]; decide)]
  have hdrop : (([joinComma CSV_HEADERS,
      encodeCsvLine ["s2".data, "2025-01-01T00:00:00.000Z".data,
        "2025-01-02T00:00:00.000Z".data, "shortBreak".data, "600".data, "200".data,
        "0.3333".data, "false".data], []].filter fun l => decide (l ≠ [])).drop 1) =
      [encodeCsvLine ["s2".data, "2025-01-01T00:00:00.000Z".data,
        "2025-01-02T00:00:00.000Z".data, "shortBreak".data, "600".data, "200".data,
        "0.3333".data, "false".data]] := by decide
  rw [hdrop, List.map_cons, List.map_nil, csv_roundtrip _ (by decide)]
  have hfb : (List.filter (fun row => decide (row.length = CSV_HEADERS.length))
      [["s2".data, "2025-01-01T00:00:00.000Z".data, "2025-01-02T00:00:00.000Z".data,
        "shortBreak".data, "600".data, "200".data, "0.3333".data, "false".data]]) = [] := by
    decide
  rw [hfb, List.map_nil, List.nil_append, csv_roundtrip _ (by decide)]
  simp +decide [coerceRow, List.getD, parseSafeNumberStr, jsNumber, jsNumberPos,
    digitsVal, digitVal?, isDigits, List.takeWhile, List.dropWhile]

/-! ### Read-back image of an appended record -/

/-- Rounding to 4 decimal digits, as `toFixed(4)` then `Number` does. -/
def roundTo4 (q : ℚ) : ℚ := ((jsRound (q * 10000) : ℤ) : ℚ) / 10000

/-- The record `readAllRecords` yields for an appended normalized record:
strings and booleans survive unchanged, the integer fields come back as
the same numbers, and the completion ratio comes back rounded to 4 decimal
digits. -/
def expectedRead (r : SessionRecord) : ReadRecord :=
  { sessionId := r.sessionId
    startedAt := r.startedAt
    endedAt := r.endedAt
    mode := r.mode
    plannedSeconds := ((r.plannedSeconds : ℤ) : ℚ)
    actualSeconds := ((r.actualSeconds : ℤ) : ℚ)
    completionRatio := roundTo4 r.completionRatio
    completed := r.completed
    wasSkipped := r.wasSkipped
    cycleIndex := ((r.cycleIndex : ℤ) : ℚ)
    reason := r.reason }

theorem parseSafeNumberStr_intRepr (i : Int) (h : 0 ≤ i) :
    parseSafeNumberStr (intRepr i) = ((i : ℚ)) := by
  rw [parseSafeNumberStr, jsNumber_intRepr i h]
  rfl

theorem parseSafeNumberStr_toFixed4 (q : ℚ) (h : 0 ≤ q) :
    parseSafeNumberStr (toFixed4 q) = roundTo4 q := by
  rw [parseSafeNumberStr, jsNumber_toFixed4 q h, roundTo4]
  rfl

theorem decide_boolRepr (b : Bool) : decide (boolRepr b = ("true".data : Str)) = b := by
  cases b <;> decide

/-- Decoding and coercing the encoded line of a normalized record recovers
it exactly, up to the 4-digit rounding of the ratio. -/
theorem coerceRow_encodeRecordLine (r : SessionRecord)
    (hp : 0 ≤ r.plannedSeconds) (ha : 0 ≤ r.actualSeconds) (hc : 0 ≤ r.cycleIndex)
    (hq : 0 ≤ r.completionRatio) :
    coerceRow (parseCsvLine (encodeRecordLine r)) = expectedRead r := by
  rw [encodeRecordLine, csv_roundtrip _ (by simp)]
  simp only [coerceRow, expectedRead, ReadRecord.mk.injEq]
  refine ⟨rfl, rfl, rfl, rfl, ?_, ?_, ?_, ?_, ?_, ?_, rfl⟩
  · show parseSafeNumberStr (intRepr r.plannedSeconds) = _
    exact parseSafeNumberStr_intRepr _ hp
  · show parseSafeNumberStr (intRepr r.actualSeconds) = _
    exact parseSafeNumberStr_intRepr _ ha
  · show parseSafeNumberStr (toFixed4 r.completionRatio) = _
    exact parseSafeNumberStr_toFixed4 _ hq
  · show decide (boolRepr r.completed = ("true".data : Str)) = _
    exact decide_boolRepr _
  · show decide (boolRepr r.wasSkipped = ("true".data : Str)) = _
    exact decide_boolRepr _
  · show parseSafeNumberStr (intRepr r.cycleIndex) = _
    exact parseSafeNumberStr_intRepr _ hc

theorem appendSession_record (now : Int) (freshId : Str) (s : StoreState)
    (raw : RawSession) :
    (appendSession now freshId s raw).2 = normalizeSession now freshId raw := rfl

theorem appendSession_file (now : Int) (freshId : Str) (b : Bool) (U : Str) (w : Nat)
    (raw : RawSession) :
    (appendSession now freshId ⟨b, some U, w⟩ raw).1.file =
      some (U ++ encodeRecordLine (normalizeSession now freshId raw) ++ ['\n']) := by
  cases b <;> rfl

/-- C10: store-level round-trip.  Starting from any existing store file made
of newline-terminated lines with at least one non-empty line (every file
the store writes has this shape, the first such line playing the role of
the header), appending a raw event and reading everything back yields, as
the last record, the returned normalized record itself — same `sessionId`,
timestamps, mode, `plannedSeconds`, `actualSeconds`, flags, `cycleIndex`
and reason, with `completionRatio` rounded to 4 decimal digits — provided
the normalized `sessionId` contains no newline.  When it does contain a
newline, the file is split on raw newlines before decoding, so no record
read back can carry that `sessionId`: the appended record is absent. -/
theorem c10_store_roundtrip (L : List Str) (raw : RawSession) (now : Int) (freshId : Str)
    (b : Bool) (w : Nat) (hL : ∀ l ∈ L, '\n' ∉ l) (hne : ∃ l ∈ L, l ≠ []) :
    ('\n' ∉ (appendSession now freshId ⟨b, some (unlines L), w⟩ raw).2.sessionId →
      (readAllRecords
        ((appendSession now freshId ⟨b, some (unlines L), w⟩ raw).1.file.getD [])).getLast? =
        some (expectedRead (appendSession now freshId ⟨b, some (unlines L), w⟩ raw).2)) ∧
    ('\n' ∈ (appendSession now freshId ⟨b, some (unlines L), w⟩ raw).2.sessionId →
      ∀ rec ∈ readAllRecords
        ((appendSession now freshId ⟨b, some (unlines L), w⟩ raw).1.file.getD []),
        rec.sessionId ≠ (appendSession now freshId ⟨b, some (unlines L), w⟩ raw).2.sessionId) := by
  have hfile : (appendSession now freshId ⟨b, some (unlines L), w⟩ raw).1.file.getD [] =
      unlines L ++ encodeRecordLine (normalizeSession now freshId raw) ++ ['\n'] := by
    rw [appendSession_file]
    rfl
  rw [appendSession_record, hfile]
  constructor
  · intro hsid
    have hlinenl : '\n' ∉ encodeRecordLine (normalizeSession now freshId raw) :=
      nl_not_mem_encodeRecordLine now freshId raw hsid
    have hlnn : encodeRecordLine (normalizeSession now freshId raw) ≠ [] := by
      rw [encodeRecordLine]
      exact encodeCsvLine_ne_nil _ _ _
    have hlen : (parseCsvLine (encodeRecordLine (normalizeSession now freshId raw))).length =
        CSV_HEADERS.length := by
      rw [encodeRecordLine, csv_roundtrip _ (by simp)]
      rfl
    rw [readAllRecords_append L _ hL hlinenl hne hlnn hlen, List.getLast?_concat]
    obtain ⟨h1, h2, _, h4, _, h6⟩ := normalizeSession_bounds now freshId raw
    rw [coerceRow_encodeRecordLine _ (by omega) h2 (by omega) h4]
  · intro hsid rec hrecmem heq
    have hnonl := readAllRecords_no_nl _ rec hrecmem
    rw [heq] at hnonl
    exact hnonl hsid

/-- C10 witness: appending a simple completed focus session to a freshly
initialized store (header line only) and reading back. -/
theorem c10_store_roundtrip_witness :
    (readAllRecords
      ((appendSession 0 "f1".data ⟨false, some (unlines [joinComma CSV_HEADERS]), 0⟩
        { sessionId := some "abc".data, startedAt := some 0, endedAt := some 3600000,
          mode := "focus".data, plannedSeconds := some 1500, actualSeconds := some 1500,
          completionRatio := some 1, completed := true, wasSkipped := false,
          cycleIndex := some 1, reason := "completed".data }).1.file.getD [])).getLast? =
      some (expectedRead
        (appendSession 0 "f1".data ⟨false, some (unlines [joinComma CSV_HEADERS]), 0⟩
          { sessionId := some "abc".data, startedAt := some 0, endedAt := some 3600000,
            mode := "focus".data, plannedSeconds := some 1500, actualSeconds := some 1500,
            completionRatio := some 1, completed := true, wasSkipped := false,
            cycleIndex := some 1, reason := "completed".data }).2) :=
  (c10_store_roundtrip [joinComma CSV_HEADERS] _ 0 "f1".data false 0
    (by decide) ⟨joinComma CSV_HEADERS, by simp, by decide⟩).1 (by decide)

end Pomodrone
